import Mathlib

/-!
Shallow embedding of the RAG-Mesh retrieval/fusion/judge/chat/orchestration
core (`backend/app`).  Pure Lean translations of the Python source; external
collaborators (the LLM adapter, vector/keyword/graph/document stores, and the
tokenizer) are passed in as explicit parameters, and machine floats are
modelled as rationals.
-/

namespace RAGMesh

/-!
### String utilities

Python `str.strip()`, `str.lower()` and the citation-marker regex
`\[(\d+)\]` used by the judge checks, modelled on character lists.
-/

/-- Python `str.strip()`: drop whitespace from both ends of a character list. -/
def stripChars (l : List Char) : List Char :=
  ((l.dropWhile Char.isWhitespace).reverse.dropWhile Char.isWhitespace).reverse

/-- Python `str.lower()` on a character list. -/
def lowerChars (l : List Char) : List Char :=
  l.map Char.toLower

/-- Sentence separators of `re.split(r'[.!?]', answer)` in the
citation-coverage check. -/
def isSentSep (c : Char) : Bool :=
  c = '.' || c = '!' || c = '?'

/-- Python `re.split(r'[.!?]', s)`: split at every separator character,
keeping empty segments (they are filtered afterwards by the caller). -/
def splitSentRaw : List Char → List (List Char)
  | [] => [[]]
  | c :: rest =>
    if isSentSep c then
      [] :: splitSentRaw rest
    else
      match splitSentRaw rest with
      | [] => [[c]]
      | s :: ss => (c :: s) :: ss

/-- Whether the list starts with a closing bracket. -/
def headIsClose : List Char → Bool
  | c :: _ => c = ']'
  | [] => false

/-- Whether a citation marker `[N]` (regex `\[(\d+)\]`) starts at the head of
the character list: an opening bracket, one or more digits, a closing
bracket. -/
def markerHere : List Char → Bool
  | c :: rest =>
    (c = '[') && (!(rest.takeWhile Char.isDigit).isEmpty)
      && headIsClose (rest.dropWhile Char.isDigit)
  | [] => false

/-- Whether the text contains a citation marker `[N]` anywhere, i.e. Python
`re.search(r'\[(\d+)\]', s)` succeeds. -/
def hasMarker : List Char → Bool
  | [] => false
  | c :: rest => markerHere (c :: rest) || hasMarker rest

/-!
### Data model (`app/core/models.py`)

Pydantic models become structures.  Timestamps and the untyped
`details`/`metadata` diagnostic dictionaries that no verified behavior reads
are omitted.  Floats become `ℚ`.
-/

/-- Citation with provenance (`models.Citation`). -/
structure Citation where
  chunk_id : String
  doc_id : String
  page_no : ℕ
  quote : String
  reason : String
deriving DecidableEq, Repr

/-- Compiled context for generation (`models.ContextPack`). -/
structure PackedChunk where
  chunk_id : String
  doc_id : String
  page_no : ℕ
  rank : ℕ
  tokens : ℕ
  text : String
  rrf_score : ℚ
deriving DecidableEq, Repr

/-- Compiled context for generation (`models.ContextPack`): context text,
packed chunks, token budget/usage, coverage map and redaction log. -/
structure ContextPack where
  context_text : String
  chunks : List PackedChunk
  token_budget : ℕ
  tokens_used : ℕ
  coverage : List (String × List String)
  redactions_applied : List String
deriving DecidableEq, Repr

/-- Generated answer with citations (`models.Answer`). -/
structure Answer where
  answer : String
  citations : List Citation
  tokens_used : ℕ
  cost : ℚ
deriving DecidableEq, Repr

/-- Status of a validation check (`models.CheckStatus`). -/
inductive CheckStatus where
  | PASS
  | FAIL
  | SKIPPED
  | ERROR
deriving DecidableEq, Repr

/-- Result of a single validation check (`models.CheckResult`). -/
structure CheckResult where
  check_name : String
  status : CheckStatus
  score : ℚ
  threshold : ℚ
  hard_fail : Bool
  message : String
deriving DecidableEq, Repr

/-- A validation violation (`models.Violation`); severity is one of
"low", "medium", "high". -/
structure Violation where
  check_name : String
  severity : String
  message : String
  remediation : String
deriving DecidableEq, Repr

/-- Final judge decision (`models.JudgeDecision`). -/
inductive JudgeDecision where
  | PASS
  | FAIL_BLOCKED
  | FAIL_RETRYABLE
deriving DecidableEq, Repr

/-- Complete validation report (`models.JudgeReport`); the best-effort
`claim_evidence_mapping` diagnostic is omitted. -/
structure JudgeReport where
  decision : JudgeDecision
  checks : List CheckResult
  violations : List Violation
  overall_score : ℚ
  passed : Bool
deriving DecidableEq, Repr

/-- Configuration of a single judge check (`models.CheckConfig`). -/
structure CheckConfig where
  enabled : Bool
  threshold : ℚ
  hard_fail : Bool
deriving DecidableEq, Repr

/-- Judge validation configuration (`models.JudgeProfile`): one
`CheckConfig` per check. -/
structure JudgeProfile where
  citation_coverage : CheckConfig
  groundedness : CheckConfig
  hallucination : CheckConfig
  relevance : CheckConfig
  consistency : CheckConfig
  toxicity : CheckConfig
  pii_leakage : CheckConfig
  bias : CheckConfig
  contradiction : CheckConfig
deriving DecidableEq, Repr

/-!
### Judge checks (`app/modules/judge/checks/*`, `app/modules/judge/orchestrator.py`)

Every check implements
`evaluate(query, context, answer, citations, threshold) -> dict` and may
raise; we model the returned dict as `EvalResult` and an exception as
`Except.error`.  The LLM-backed checks are external-call wrappers and are
passed in through a `CheckTable`; the deterministic citation-coverage check
is embedded below and plugged into that table.
-/

/-- Returned score/message of one check evaluation (the `details` dict is a
diagnostic payload and is omitted). -/
structure EvalResult where
  score : ℚ
  message : String
deriving DecidableEq, Repr

/-- Contract of a check's `evaluate(query, context, answer, citations,
threshold)`; a raised exception is `Except.error`. -/
def CheckEval : Type :=
  String → String → String → List Citation → ℚ → Except String EvalResult

/-- The check table built in `JudgeOrchestrator.__init__` (`self.checks`). -/
structure CheckTable where
  citation_coverage : CheckEval
  groundedness : CheckEval
  hallucination : CheckEval
  relevance : CheckEval
  consistency : CheckEval
  toxicity : CheckEval
  pii_leakage : CheckEval
  bias : CheckEval
  contradiction : CheckEval

/-- Sentence-like units of `CitationCoverageCheck.evaluate`:
`[s.strip() for s in re.split(r'[.!?]', answer) if s.strip()]`. -/
def sentencesOf (answer : String) : List (List Char) :=
  ((splitSentRaw answer.data).map stripChars).filter (· ≠ [])

/-- Coverage score of `CitationCoverageCheck.evaluate`: the fraction of
sentence-like units containing a `[N]` marker; `0.0` when there are no
sentences. -/
def coverageScore (answer : String) : ℚ :=
  let sentences := sentencesOf answer
  let cited := sentences.countP (fun s => hasMarker s)
  if sentences.length > 0 then (cited : ℚ) / (sentences.length : ℚ) else 0

/-- Deterministic `CitationCoverageCheck.evaluate` (it never raises); the
human-readable percentage formatting of the message is elided. -/
def citationCoverageEval : CheckEval := fun _ _ answer _ _ =>
  .ok { score := coverageScore answer, message := "Citation coverage" }

/-- One run of `JudgeOrchestrator._run_check`: on success, PASS iff
`score >= threshold`; on a raised exception, status ERROR with score `0.0`
carrying the check's own configured `hard_fail` flag. -/
def runCheck (check_name : String) (config : CheckConfig)
    (outcome : Except String EvalResult) : CheckResult :=
  match outcome with
  | .ok r =>
    { check_name := check_name
      status := if r.score ≥ config.threshold then .PASS else .FAIL
      score := r.score
      threshold := config.threshold
      hard_fail := config.hard_fail
      message := r.message }
  | .error e =>
    { check_name := check_name
      status := .ERROR
      score := 0
      threshold := config.threshold
      hard_fail := config.hard_fail
      message := "Check failed with error: " ++ e }

/-- Remediation recommendation table (`JudgeOrchestrator._get_remediation`). -/
def remediationFor (check_name : String) : String :=
  if check_name = "citation_coverage" then
    "Add more citations to support factual claims. Ensure every claim has a corresponding citation."
  else if check_name = "groundedness" then
    "Ensure all claims are directly supported by the provided context. Remove or rephrase unsupported claims."
  else if check_name = "hallucination" then
    "Remove fabricated information. Only include facts present in the source documents."
  else if check_name = "relevance" then
    "Focus the answer more directly on addressing the specific query. Remove tangential information."
  else if check_name = "consistency" then
    "Review the answer for internal contradictions. Ensure all statements align with each other."
  else if check_name = "toxicity" then
    "Remove any toxic, offensive, or inappropriate language from the answer."
  else if check_name = "pii_leakage" then
    "Redact any personally identifiable information (SSN, email, phone, etc.) from the answer."
  else if check_name = "bias" then
    "Remove biased or discriminatory language. Ensure fair and neutral treatment of all groups."
  else if check_name = "contradiction" then
    "Ensure the answer does not contradict the source context. Align claims with evidence."
  else
    "Review and improve this aspect of the answer."

/-- Severity assignment of `_compile_report` for a failed check: "high" when
hard_fail, "medium" when the score is below `threshold * 0.7`, else "low". -/
def severityOf (r : CheckResult) : String :=
  if r.hard_fail then "high"
  else if r.score < r.threshold * (7 / 10) then "medium"
  else "low"

/-- Violation built by `_compile_report` for a failed check; the fallback
message's score interpolation is elided. -/
def violationOf (r : CheckResult) : Violation :=
  { check_name := r.check_name
    severity := severityOf r
    message := if r.message = "" then r.check_name ++ " failed" else r.message
    remediation := remediationFor r.check_name }

/-- Result-analysis loop of `_compile_report`: accumulates the violation
list, the `passed` flag (falsified by any FAIL) and the `blocked` flag (set
by a FAIL on a hard_fail-configured check).  Statuses other than FAIL —
including ERROR — leave all three untouched. -/
def analyzeChecks : List CheckResult → List Violation × Bool × Bool
  | [] => ([], true, false)
  | r :: rest =>
    let a := analyzeChecks rest
    if r.status = .FAIL then
      (violationOf r :: a.1, false, r.hard_fail || a.2.2)
    else
      a

/-- Source `JudgeOrchestrator._compile_report`: aggregate the check results into
the final report. -/
def compileReport (check_results : List CheckResult) : JudgeReport :=
  let a := analyzeChecks check_results
  let overall_score : ℚ :=
    if check_results.length > 0 then
      ((check_results.map (·.score)).sum) / (check_results.length : ℚ)
    else 0
  let decision :=
    if a.2.2 then JudgeDecision.FAIL_BLOCKED
    else if a.2.1 = false then JudgeDecision.FAIL_RETRYABLE
    else JudgeDecision.PASS
  { decision := decision
    checks := check_results
    violations := a.1
    overall_score := overall_score
    passed := a.2.1 }

/-- Contribution of one enabled check to the result list assembled in
`JudgeOrchestrator.evaluate` (disabled checks are skipped). -/
def enabledCheck (check_name : String) (config : CheckConfig) (f : CheckEval)
    (query : String) (ctx : String) (ans : Answer) : List CheckResult :=
  if config.enabled then
    [runCheck check_name config (f query ctx ans.answer ans.citations config.threshold)]
  else []

/-- Source `JudgeOrchestrator.evaluate`: run the five independent checks (in the
order they are gathered), then the four dependent checks sequentially, and
compile the report.  `ctx` is `context_pack.context_text`. -/
def judgeEvaluate (table : CheckTable) (profile : JudgeProfile)
    (query : String) (ctx : String) (ans : Answer) : JudgeReport :=
  let results :=
    enabledCheck "citation_coverage" profile.citation_coverage table.citation_coverage query ctx ans
    ++ enabledCheck "relevance" profile.relevance table.relevance query ctx ans
    ++ enabledCheck "toxicity" profile.toxicity table.toxicity query ctx ans
    ++ enabledCheck "pii_leakage" profile.pii_leakage table.pii_leakage query ctx ans
    ++ enabledCheck "bias" profile.bias table.bias query ctx ans
    ++ enabledCheck "groundedness" profile.groundedness table.groundedness query ctx ans
    ++ enabledCheck "hallucination" profile.hallucination table.hallucination query ctx ans
    ++ enabledCheck "consistency" profile.consistency table.consistency query ctx ans
    ++ enabledCheck "contradiction" profile.contradiction table.contradiction query ctx ans
  compileReport results

/-!
### Fusion (`app/modules/fusion.py`)

`FusionModule.fuse_results` with Reciprocal Rank Fusion, the diversity pass,
exact-text dedup, top-k truncation and final rank assignment.  Chunk
metadata dicts are modelled as association lists of strings; Python
truthiness of a dict is emptiness, of a string value is non-emptiness.
-/

/-- Chunk metadata dict, as carried by retrieval results. -/
abbrev Metadata := List (String × String)

/-- Python `metadata.get(key)` on the association list. -/
def metaLookup (m : Metadata) (key : String) : Option String :=
  (m.find? (·.1 = key)).map (·.2)

/-- The `doc_id` read by the diversity pass: `result.get("metadata",
{}).get("doc_id")` followed by the `if not doc_id` truthiness test, so a
missing or empty value is `none`. -/
def metaDocId (m : Metadata) : Option String :=
  match metaLookup m "doc_id" with
  | none => none
  | some s => if s = "" then none else some s

/-- The chunk text read by the dedup pass:
`result.get("metadata", {}).get("text", "")`. -/
def metaText (m : Metadata) : String :=
  (metaLookup m "text").getD ""

/-- Fusion configuration (`models.FusionProfile`). -/
structure FusionProfile where
  vector_weight : ℚ
  document_weight : ℚ
  graph_weight : ℚ
  rrf_k : ℕ
  max_chunks_per_doc : ℕ
  min_distinct_docs : ℕ
  dedup_threshold : ℚ
  apply_diversity_constraints : Bool
  final_top_k : ℕ
deriving DecidableEq, Repr

/-- Single vector search result (`models.VectorResult`), 1-indexed rank. -/
structure VectorResult where
  chunk_id : String
  score : ℚ
  rank : ℕ
  metadata : Metadata
deriving DecidableEq, Repr

/-- Single keyword/document retrieval result (`models.DocumentResult`). -/
structure DocumentResult where
  chunk_id : String
  score : ℚ
  rank : ℕ
  metadata : Metadata
deriving DecidableEq, Repr

/-- Graph retrieval result (`models.GraphResult`). -/
structure GraphResult where
  chunk_id : String
  score : ℚ
  rank : ℕ
  entity_ids : List String
  metadata : Metadata
deriving DecidableEq, Repr

/-- Per-chunk accumulator of `fuse_results` (`chunk_scores[chunk_id]`), with
the defaultdict's initial value as field defaults. -/
structure ScoreAcc where
  vector_score : ℚ := 0
  document_score : ℚ := 0
  graph_score : ℚ := 0
  rrf_score : ℚ := 0
  entity_ids : List String := []
  metadata : Metadata := []
deriving DecidableEq, Repr

/-- Update `chunk_scores[c] = f(chunk_scores[c])` with defaultdict semantics:
update in place when the key exists, else append a fresh default entry
(Python dicts preserve insertion order). -/
def updScore (m : List (String × ScoreAcc)) (c : String) (f : ScoreAcc → ScoreAcc) :
    List (String × ScoreAcc) :=
  match m with
  | [] => [(c, f {})]
  | (k, v) :: rest => if k = c then (k, f v) :: rest else (k, v) :: updScore rest c f

/-- Vector pass of `fuse_results`: add `vector_weight/(rrf_k + rank)` to the
chunk's RRF score, overwrite its vector score and its metadata. -/
def addVectorResults (p : FusionProfile) :
    List (String × ScoreAcc) → List VectorResult → List (String × ScoreAcc)
  | m, [] => m
  | m, r :: rest =>
    addVectorResults p
      (updScore m r.chunk_id (fun a =>
        { a with
          vector_score := r.score
          rrf_score := a.rrf_score + p.vector_weight / ((p.rrf_k : ℚ) + (r.rank : ℚ))
          metadata := r.metadata }))
      rest

/-- Document pass of `fuse_results`: add `document_weight/(rrf_k + rank)`,
overwrite the document score, and fill the metadata only when still empty. -/
def addDocumentResults (p : FusionProfile) :
    List (String × ScoreAcc) → List DocumentResult → List (String × ScoreAcc)
  | m, [] => m
  | m, r :: rest =>
    addDocumentResults p
      (updScore m r.chunk_id (fun a =>
        { a with
          document_score := r.score
          rrf_score := a.rrf_score + p.document_weight / ((p.rrf_k : ℚ) + (r.rank : ℚ))
          metadata := if a.metadata = [] then r.metadata else a.metadata }))
      rest

/-- Graph pass of `fuse_results`: add `graph_weight/(rrf_k + rank)`,
overwrite the graph score and entity ids, and fill the metadata only when
still empty. -/
def addGraphResults (p : FusionProfile) :
    List (String × ScoreAcc) → List GraphResult → List (String × ScoreAcc)
  | m, [] => m
  | m, r :: rest =>
    addGraphResults p
      (updScore m r.chunk_id (fun a =>
        { a with
          graph_score := r.score
          rrf_score := a.rrf_score + p.graph_weight / ((p.rrf_k : ℚ) + (r.rank : ℚ))
          entity_ids := r.entity_ids
          metadata := if a.metadata = [] then r.metadata else a.metadata }))
      rest

/-- The completed `chunk_scores` map after all three modality passes. -/
def chunkScores (p : FusionProfile) (v : List VectorResult) (d : List DocumentResult)
    (g : List GraphResult) : List (String × ScoreAcc) :=
  addGraphResults p (addDocumentResults p (addVectorResults p [] v) d) g

/-- One fused result dict; `final_rank` is only attached at the end of
`fuse_results`, so it starts as a placeholder `0`. -/
structure FusedEntry where
  chunk_id : String
  rrf_score : ℚ
  vector_score : ℚ
  document_score : ℚ
  graph_score : ℚ
  entity_ids : List String
  metadata : Metadata
  final_rank : ℕ
deriving DecidableEq, Repr

/-- The `fused_results` list built from the `chunk_scores` items. -/
def entriesOf (m : List (String × ScoreAcc)) : List FusedEntry :=
  m.map (fun ca =>
    { chunk_id := ca.1
      rrf_score := ca.2.rrf_score
      vector_score := ca.2.vector_score
      document_score := ca.2.document_score
      graph_score := ca.2.graph_score
      entity_ids := ca.2.entity_ids
      metadata := ca.2.metadata
      final_rank := 0 })

/-- Descending insertion by `rrf_score`.  Python's `list.sort(reverse=True)`
is a stable sort; only the descending order and the element multiset are
relied upon by the verified claims, so an insertion sort stands in for it. -/
def insertDesc (e : FusedEntry) : List FusedEntry → List FusedEntry
  | [] => [e]
  | x :: xs => if x.rrf_score < e.rrf_score then e :: x :: xs else x :: insertDesc e xs

/-- Sort `fused_results.sort(key=rrf_score, reverse=True)`. -/
def sortByScore : List FusedEntry → List FusedEntry
  | [] => []
  | e :: rest => insertDesc e (sortByScore rest)

/-- The `doc_id` of a fused entry as used by the diversity pass. -/
def entryDocId (e : FusedEntry) : Option String :=
  metaDocId e.metadata

/-- Python `doc_counts.get(doc_id, 0)`. -/
def countsGet : List (String × ℕ) → String → ℕ
  | [], _ => 0
  | (k, n) :: rest, d => if k = d then n else countsGet rest d

/-- Python `doc_counts[doc_id] = doc_counts.get(doc_id, 0) + 1`. -/
def countsInc (counts : List (String × ℕ)) (d : String) : List (String × ℕ) :=
  match counts with
  | [] => [(d, 1)]
  | (k, n) :: rest => if k = d then (k, n + 1) :: rest else (k, n) :: countsInc rest d

/-- Selection loop of `FusionModule._apply_diversity`: keep entries without
a (truthy) doc_id unconditionally; keep an entry with doc_id `d` only while
fewer than `max_per_doc` entries of `d` have been kept. -/
def diversityLoop (maxPerDoc : ℕ) : List (String × ℕ) → List FusedEntry → List FusedEntry
  | _, [] => []
  | counts, e :: rest =>
    match entryDocId e with
    | none => e :: diversityLoop maxPerDoc counts rest
    | some d =>
      if countsGet counts d < maxPerDoc then
        e :: diversityLoop maxPerDoc (countsInc counts d) rest
      else
        diversityLoop maxPerDoc counts rest

/-- Source `FusionModule._apply_diversity`; a shortfall below `min_docs` only logs
a warning and does not change the result. -/
def applyDiversity (results : List FusedEntry) (maxPerDoc : ℕ) (_minDocs : ℕ) :
    List FusedEntry :=
  diversityLoop maxPerDoc [] results

/-- Scan loop of `FusionModule._deduplicate`: entries whose metadata text is
empty are always kept; an entry whose text was already seen is dropped. -/
def dedupLoop : List String → List FusedEntry → List FusedEntry
  | _, [] => []
  | seen, e :: rest =>
    if metaText e.metadata = "" then e :: dedupLoop seen rest
    else if metaText e.metadata ∈ seen then dedupLoop seen rest
    else e :: dedupLoop (metaText e.metadata :: seen) rest

/-- Source `FusionModule._deduplicate`: skipped entirely when `threshold >= 1.0`,
else exact-text dedup keeping first occurrences. -/
def dedupResults (threshold : ℚ) (results : List FusedEntry) : List FusedEntry :=
  if threshold ≥ 1 then results else dedupLoop [] results

/-- Final contiguous 1-indexed rank assignment (`enumerate(..., start=1)`)
at the end of `fuse_results`. -/
def assignRanks : ℕ → List FusedEntry → List FusedEntry
  | _, [] => []
  | n, e :: rest => { e with final_rank := n } :: assignRanks (n + 1) rest

/-- Source `FusionModule.fuse_results`: RRF scoring over the three modalities,
descending sort, optional diversity pass, dedup, top-k, final ranks. -/
def fuseResults (v : List VectorResult) (d : List DocumentResult)
    (g : List GraphResult) (p : FusionProfile) : List FusedEntry :=
  let fused := sortByScore (entriesOf (chunkScores p v d g))
  let fused :=
    if p.apply_diversity_constraints then
      applyDiversity fused p.max_chunks_per_doc p.min_distinct_docs
    else fused
  let fused := dedupResults p.dedup_threshold fused
  let fused := fused.take p.final_top_k
  assignRanks 1 fused

/-!
### Fusion lemmas
-/

/-- Reference lookup into `chunk_scores`, with the defaultdict's default. -/
def accOf : List (String × ScoreAcc) → String → ScoreAcc
  | [], _ => {}
  | (k, v) :: rest, c => if k = c then v else accOf rest c

/-- RRF contribution of one vector-modality list to chunk `c`: a result at
1-indexed rank `r` contributes `vector_weight/(rrf_k + r)` whenever its
chunk id is `c`. -/
def vectorContrib (p : FusionProfile) (v : List VectorResult) (c : String) : ℚ :=
  ((v.filter (·.chunk_id = c)).map
    (fun r => p.vector_weight / ((p.rrf_k : ℚ) + (r.rank : ℚ)))).sum

/-- RRF contribution of the document modality to chunk `c`. -/
def documentContrib (p : FusionProfile) (d : List DocumentResult) (c : String) : ℚ :=
  ((d.filter (·.chunk_id = c)).map
    (fun r => p.document_weight / ((p.rrf_k : ℚ) + (r.rank : ℚ)))).sum

/-- RRF contribution of the graph modality to chunk `c`. -/
def graphContrib (p : FusionProfile) (g : List GraphResult) (c : String) : ℚ :=
  ((g.filter (·.chunk_id = c)).map
    (fun r => p.graph_weight / ((p.rrf_k : ℚ) + (r.rank : ℚ)))).sum

/-!
### Context compiler (`app/modules/context_compiler.py`)

`ContextCompilerModule.compile_context`.  The external tokenizer
(`count_tokens`) and the deterministic PII-redaction pass (which transforms
only the final context text and reports the categories that fired) are
parameters; the document store's chunks are passed as a list.
-/

/-- Context compilation configuration (`models.ContextProfile`). -/
structure ContextProfile where
  max_context_tokens : ℕ
  citation_format : String
  include_page_numbers : Bool
  include_doc_metadata : Bool
  redact_pii : Bool
  reserve_tokens_for_query : ℕ
  reserve_tokens_for_instructions : ℕ
deriving DecidableEq, Repr

/-- One chunk record returned by the document store's `get_chunks`. -/
structure StoreChunk where
  chunk_id : String
  doc_id : String
  text : String
  page_no : ℕ
deriving DecidableEq, Repr

/-- A fused result enriched by `_load_chunk_texts` with the text, doc id
and page of its chunk. -/
structure EnrichedChunk where
  chunk_id : String
  rrf_score : ℚ
  text : String
  doc_id : String
  page_no : ℕ
  metadata : Metadata
deriving DecidableEq, Repr

/-- Source `_load_chunk_texts`: build the chunk map (a dict comprehension, so a
duplicated chunk_id keeps the last occurrence) and enrich every fused
result, with `""`/`""`/`1` defaults for unknown chunk ids. -/
def loadChunkTexts (allChunks : List StoreChunk) (fused : List FusedEntry) :
    List EnrichedChunk :=
  fused.map (fun r =>
    match allChunks.reverse.find? (·.chunk_id = r.chunk_id) with
    | some ch =>
      { chunk_id := r.chunk_id, rrf_score := r.rrf_score, text := ch.text,
        doc_id := ch.doc_id, page_no := ch.page_no, metadata := r.metadata }
    | none =>
      { chunk_id := r.chunk_id, rrf_score := r.rrf_score, text := "",
        doc_id := "", page_no := 1, metadata := r.metadata })

/-- Source `_format_inline_citation`. -/
def formatInlineCitation (profile : ContextProfile) (chunk : EnrichedChunk)
    (rank : ℕ) : String :=
  let citationParts := ["[" ++ toString rank ++ "]"]
  let citationParts :=
    if profile.include_page_numbers then
      citationParts ++ ["(Page " ++ toString chunk.page_no ++ ")"]
    else citationParts
  let citationParts :=
    if profile.include_doc_metadata ∧ chunk.doc_id ≠ "" then
      citationParts ++ ["(Doc: " ++ chunk.doc_id.take 8 ++ ")"]
    else citationParts
  String.intercalate " " citationParts ++ " " ++ chunk.text

/-- Source `_format_detailed_citation`. -/
def formatDetailedCitation (chunk : EnrichedChunk) (rank : ℕ) : String :=
  "[Citation " ++ toString rank ++ "]\n"
    ++ "Document: " ++ chunk.doc_id ++ "\n"
    ++ "Page: " ++ toString chunk.page_no ++ "\n"
    ++ "Form: " ++ ((metaLookup chunk.metadata "form_number").getD "N/A") ++ "\n"
    ++ "Content: " ++ chunk.text

/-- Citation-format dispatch inside the packing loop of `_pack_chunks`. -/
def renderChunk (profile : ContextProfile) (chunk : EnrichedChunk) (rank : ℕ) : String :=
  if profile.citation_format = "inline" then formatInlineCitation profile chunk rank
  else if profile.citation_format = "detailed" then formatDetailedCitation chunk rank
  else chunk.text

/-- Token count of the rendered unit of one ranked candidate, via the
external tokenizer. -/
def unitTokens (tok : String → ℕ) (profile : ContextProfile)
    (p : ℕ × EnrichedChunk) : ℕ :=
  tok (renderChunk profile p.2 p.1)

/-- The packed-chunk record appended by `_pack_chunks` for one kept unit. -/
def mkPackedChunk (tok : String → ℕ) (profile : ContextProfile)
    (p : ℕ × EnrichedChunk) : PackedChunk :=
  { chunk_id := p.2.chunk_id, doc_id := p.2.doc_id, page_no := p.2.page_no,
    rank := p.1, tokens := unitTokens tok profile p, text := p.2.text,
    rrf_score := p.2.rrf_score }

/-- Packing loop of `_pack_chunks` over `enumerate(chunks, start=1)`: skip
empty-text candidates (`continue`), stop packing entirely at the first unit
whose token count would push the running total past the budget (`break`),
else append the unit.  Returns (packed chunks, rendered parts, total). -/
def packGo (tok : String → ℕ) (profile : ContextProfile) (budget : ℤ) :
    List (ℕ × EnrichedChunk) → ℕ → List PackedChunk × List String × ℕ
  | [], total => ([], [], total)
  | (rank, c) :: rest, total =>
    if c.text = "" then packGo tok profile budget rest total
    else
      let t := unitTokens tok profile (rank, c)
      if budget < (total : ℤ) + (t : ℤ) then ([], [], total)
      else
        let r := packGo tok profile budget rest (total + t)
        (mkPackedChunk tok profile (rank, c) :: r.1,
         renderChunk profile c rank :: r.2.1, r.2.2)

/-- Source `ContextCompilerModule._pack_chunks`. -/
def packChunks (tok : String → ℕ) (profile : ContextProfile) (budget : ℤ)
    (chunks : List EnrichedChunk) : List PackedChunk × List String × ℕ :=
  packGo tok profile budget (List.enumFrom 1 chunks) 0

/-- Python `str.split()`: whitespace split discarding empty tokens. -/
def splitWs (s : String) : List String :=
  (s.split (fun c => c.isWhitespace)).filter (· ≠ "")

/-- Whether `sub` starts `l`. -/
def startsWithChars : List Char → List Char → Bool
  | _, [] => true
  | [], _ :: _ => false
  | h :: t, h' :: t' => (h = h') && startsWithChars t t'

/-- Python `sub in hay` on character lists. -/
def containsChars (sub : List Char) : List Char → Bool
  | [] => sub.isEmpty
  | c :: rest => startsWithChars (c :: rest) sub || containsChars sub rest

/-- Source `_generate_coverage`: map every lowercased query term longer than 3
characters to the packed chunks whose text contains it, keeping terms with
support. -/
def generateCoverage (query : String) (chunks : List PackedChunk) :
    List (String × List String) :=
  let queryTerms :=
    ((splitWs query).filter (fun t => t.length > 3)).map
      (fun t => String.mk (lowerChars t.data))
  (queryTerms.map (fun term =>
    (term,
      (chunks.filter (fun ch => containsChars term.data (lowerChars ch.text.data))).map
        (·.chunk_id)))).filter (fun tc => tc.2 ≠ [])

/-- Available packing budget of `compile_context`:
`max_context_tokens - reserve_tokens_for_query -
reserve_tokens_for_instructions` (an integer; the reserves may exceed the
maximum). -/
def availableBudget (profile : ContextProfile) : ℤ :=
  (profile.max_context_tokens : ℤ) - (profile.reserve_tokens_for_query : ℤ)
    - (profile.reserve_tokens_for_instructions : ℤ)

/-- Source `ContextCompilerModule.compile_context`.  `redact` is the deterministic
`_redact_pii` pattern pass: it transforms only the final context text and
returns the categories that fired; token counts are computed before
redaction and are not recomputed, as in the source. -/
def compileContext (tok : String → ℕ) (redact : String → String × List String)
    (allChunks : List StoreChunk) (fused : List FusedEntry) (query : String)
    (profile : ContextProfile) : ContextPack :=
  let chunksWithText := loadChunkTexts allChunks fused
  let packed := packChunks tok profile (availableBudget profile) chunksWithText
  let contextText := String.intercalate "\n\n" packed.2.1
  let coverage := generateCoverage query packed.1
  let redacted :=
    if profile.redact_pii then redact contextText else (contextText, [])
  { context_text := redacted.1
    chunks := packed.1
    token_budget := profile.max_context_tokens
    tokens_used := packed.2.2
    coverage := coverage
    redactions_applied := redacted.2 }

/-!
### Chat session manager (`app/core/chat_manager.py`)
-/

/-- Chat mode configuration (`models.ChatProfile`); fields the chat manager
does not read are omitted. -/
structure ChatProfile where
  compaction_threshold_tokens : ℕ
  max_history_turns : ℕ
  summarization_max_tokens : ℕ
  include_summary_in_context : Bool
  reserve_tokens_for_history : ℕ
deriving DecidableEq, Repr

/-- Single turn in a chat conversation (`models.ChatTurn`). -/
structure ChatTurn where
  turn_number : ℕ
  query : String
  answer : Answer
  run_id : String
  tokens : ℕ
deriving DecidableEq, Repr

/-- Chat conversation history (`models.ChatHistory`). -/
structure ChatHistory where
  turns : List ChatTurn := []
  summary : Option String := none
  summary_covers_turns : List ℕ := []
  total_turns : ℕ := 0
deriving DecidableEq, Repr

/-- Complete chat session state (`models.ChatSession`); timestamps are
omitted. -/
structure ChatSession where
  session_id : String
  history : ChatHistory := {}
  total_tokens : ℕ := 0
  workflow_id : String := "default_workflow"
  chat_profile_id : String := "default"
deriving DecidableEq, Repr

/-- The in-memory session table (`ChatSessionManager.sessions`). -/
abbrev SessionTable := List (String × ChatSession)

/-- Lookup `self.sessions.get(session_id)`. -/
def getSession (tbl : SessionTable) (session_id : String) : Option ChatSession :=
  (tbl.find? (·.1 = session_id)).map (·.2)

/-- Source `ChatSessionManager.delete_session` (a no-op when the id is absent). -/
def deleteSession (tbl : SessionTable) (session_id : String) : SessionTable :=
  tbl.filter (·.1 ≠ session_id)

/-- Source `ChatSessionManager.create_session`, with the generated uuid supplied
as `newId`. -/
def createSession (tbl : SessionTable) (newId : String)
    (workflow_id : String) (chat_profile_id : String) : SessionTable :=
  tbl ++ [(newId, { session_id := newId, workflow_id := workflow_id,
                    chat_profile_id := chat_profile_id })]

/-- Store back a mutated session object under its id. -/
def updateSession (tbl : SessionTable) (session_id : String)
    (s : ChatSession) : SessionTable :=
  tbl.map (fun kv => if kv.1 = session_id then (session_id, s) else kv)

/-- Source `ChatSessionManager.add_turn` applied to a resolved session: append the
turn, bump `total_turns` and the token account, and return the new session
with the turn number. -/
def addTurnToSession (session : ChatSession) (query : String) (answer : Answer)
    (run_id : String) (tokens : ℕ) : ChatSession × ℕ :=
  let turn_number := session.history.total_turns + 1
  let turn : ChatTurn :=
    { turn_number := turn_number, query := query, answer := answer,
      run_id := run_id, tokens := tokens }
  ({ session with
      history := { session.history with
        turns := session.history.turns ++ [turn]
        total_turns := turn_number }
      total_tokens := session.total_tokens + tokens }, turn_number)

/-- Source `ChatSessionManager._compact_history`: keep the last
`max(1, max_history_turns // 2)` turns; when there are more turns than
that, summarize the older ones through the external LLM call `summ` — on
success store the summary and the covered turn numbers, on failure drop the
older turns without a summary. -/
def compactHistory (summ : Except String String) (session : ChatSession)
    (profile : ChatProfile) : ChatSession :=
  let keep_turns := max 1 (profile.max_history_turns / 2)
  if session.history.turns.length ≤ keep_turns then session
  else
    let turns_to_summarize :=
      session.history.turns.take (session.history.turns.length - keep_turns)
    let kept_turns :=
      session.history.turns.drop (session.history.turns.length - keep_turns)
    match summ with
    | .ok summary =>
      { session with history :=
          { session.history with
              summary := some summary
              summary_covers_turns := turns_to_summarize.map (·.turn_number)
              turns := kept_turns } }
    | .error _ =>
      { session with history := { session.history with turns := kept_turns } }

/-- Source `ChatSessionManager.check_and_compact` on a resolved session: compaction
fires when the uncompacted turns' token sum exceeds
`compaction_threshold_tokens` or their count exceeds `max_history_turns`;
returns whether compaction was performed, with the updated session. -/
def checkAndCompact (summ : Except String String) (session : ChatSession)
    (profile : ChatProfile) : Bool × ChatSession :=
  let history_tokens := (session.history.turns.map (·.tokens)).sum
  if history_tokens > profile.compaction_threshold_tokens ∨
      session.history.turns.length > profile.max_history_turns then
    (true, compactHistory summ session profile)
  else
    (false, session)

/-- Source `ChatSessionManager.check_quit_command`: the trimmed, lowercased query
equals the literal "quit". -/
def checkQuitCommand (query : String) : Bool :=
  lowerChars (stripChars query.data) = "quit".data

/-!
### Run orchestrator (`app/core/orchestrator.py`)

`RunOrchestrator.execute_run` as a state transformer over the session table
and the persisted per-run event logs.  The fresh run uuid is a parameter;
the externally-backed stage bodies are oracle parameters (they are verified
separately); artifact files and the per-modality retrieval sub-events are
not modelled — run status is derived from the event log alone.
-/

/-- Pipeline event types (`models.EventType`). -/
inductive EventType where
  | RUN_STARTED
  | RETRIEVAL_STARTED
  | VECTOR_SEARCH_COMPLETED
  | DOCUMENT_SEARCH_COMPLETED
  | GRAPH_SEARCH_COMPLETED
  | FUSION_COMPLETED
  | CONTEXT_COMPILED
  | GENERATION_COMPLETED
  | JUDGE_STARTED
  | JUDGE_CHECK_COMPLETED
  | JUDGE_COMPLETED
  | RUN_COMPLETED
  | RUN_BLOCKED
  | RUN_FAILED
  | CHAT_SESSION_CREATED
  | CHAT_COMPACTED
  | CHAT_TURN_ADDED
  | CHAT_SESSION_TERMINATED
deriving DecidableEq, Repr

/-- Pipeline event (`models.Event`); timestamps and the payload dict are
omitted (status derivation reads only the event type). -/
structure Event where
  run_id : String
  event_type : EventType
  step : String
deriving DecidableEq, Repr

/-- Event constructor used by `_emit_event`. -/
def mkEvent (runId : String) (t : EventType) (step : String) : Event :=
  { run_id := runId, event_type := t, step := step }

/-- Workflow configuration (`models.WorkflowProfile`); fields the
orchestrator control flow does not read are omitted. -/
structure WorkflowProfile where
  workflow_id : String
  steps : List String
  enable_graph_retrieval : Bool
  fail_on_judge_block : Bool
deriving DecidableEq, Repr

/-- Retrieval bundle (`models.RetrievalBundle`), reduced to the three
modality result lists consumed by fusion. -/
structure RetrievalBundle where
  vector_results : List VectorResult
  document_results : List DocumentResult
  graph_results : List GraphResult
deriving Repr

/-- Orchestrator-visible state: the in-memory session table, the persisted
`events.jsonl` content per run id, and the set of created run directories. -/
structure OrchState where
  sessions : SessionTable
  savedRuns : List (String × List Event)
  runDirs : List String
deriving Repr

/-- Lookup of a persisted event log. -/
def savedLookup (saved : List (String × List Event)) (runId : String) :
    Option (List Event) :=
  (saved.find? (·.1 = runId)).map (·.2)

/-- Source `_save_events`: write (overwrite) the run's `events.jsonl`. -/
def saveEvents (saved : List (String × List Event)) (runId : String)
    (events : List Event) : List (String × List Event) :=
  (runId, events) :: saved.filter (·.1 ≠ runId)

/-- Outcomes of the externally-backed pipeline stages for one run; an
exception raised inside a stage is `Except.error`.  `newSessionId` is the
uuid generated by `create_session` when a session must be created. -/
structure Stages where
  retrieval : Except String RetrievalBundle
  fusionStage : RetrievalBundle → Except String (List FusedEntry)
  contextStage : List FusedEntry → Except String ContextPack
  generationStage : ContextPack → Except String Answer
  judgeStage : ContextPack → Answer → Except String JudgeReport
  summarize : Except String String
  newSessionId : String

/-- The dict returned by `execute_run`; absent keys are `none`. -/
structure RunResult where
  run_id : String
  status : String
  decision : Option String := none
  answer : Option Answer := none
  judge_report : Option JudgeReport := none
  session_id : Option String := none
  turn_number : Option ℕ := none
  history_compacted : Bool := false
  message : Option String := none
  error : Option String := none
deriving Repr

/-- String value of a judge decision as serialized into the run result. -/
def decisionStr : JudgeDecision → String
  | .PASS => "PASS"
  | .FAIL_BLOCKED => "FAIL_BLOCKED"
  | .FAIL_RETRYABLE => "FAIL_RETRYABLE"

/-- Failure return of the `except` clause of `execute_run`: emit RUN_FAILED,
persist the events, return a failed result. -/
def failRun (st : OrchState) (runId : String) (events : List Event)
    (e : String) : RunResult × OrchState :=
  let events := events ++ [mkEvent runId .RUN_FAILED "run_failed"]
  ({ run_id := runId, status := "failed", error := some e },
   { st with savedRuns := saveEvents st.savedRuns runId events })

/-- Chat-mode session resolution in `execute_run`: reuse a live session,
else create one (also when the supplied id is unresolved), emitting
CHAT_SESSION_CREATED on creation.  Returns the resolved id, state, events. -/
def resolveSession (st : OrchState) (stages : Stages) (runId : String)
    (workflowId : String) (chatProfileId : String) (sessionId : Option String)
    (events : List Event) : String × OrchState × List Event :=
  let fresh :=
    (stages.newSessionId,
     { st with sessions := createSession st.sessions stages.newSessionId workflowId chatProfileId },
     events ++ [mkEvent runId .CHAT_SESSION_CREATED "chat_session_created"])
  match sessionId with
  | some sid =>
    if sid ≠ "" then
      match getSession st.sessions sid with
      | some _ => (sid, st, events)
      | none => fresh
    else fresh
  | none => fresh

/-- Success return of `execute_run` (the body of the `try` block after
generation): judge step when the workflow includes it, RUN_BLOCKED or
RUN_COMPLETED, event save, then chat turn recording (skipped when blocked;
its CHAT_TURN_ADDED event joins only the in-memory list, after the save).
The `fail_on_judge_block` flag nulls the returned answer of a blocked
run. -/
def finishRun (st : OrchState) (runId : String) (workflow : WorkflowProfile)
    (query : String) (isChat : Bool) (sid : String) (compacted : Bool)
    (events : List Event) (ctx : ContextPack) (ans : Answer)
    (judged : Option JudgeReport) : RunResult × OrchState :=
  let decision := match judged with
    | some report => decisionStr report.decision
    | none => "SKIPPED"
  let blocked : Bool := match judged with
    | some report => decide (report.decision = JudgeDecision.FAIL_BLOCKED)
    | none => false
  let events :=
    if blocked then events ++ [mkEvent runId .RUN_BLOCKED "run_blocked"]
    else events ++ [mkEvent runId .RUN_COMPLETED "run_completed"]
  let status := if blocked then "blocked" else "completed"
  let st := { st with savedRuns := saveEvents st.savedRuns runId events }
  if isChat ∧ blocked = false then
    match getSession st.sessions sid with
    | none =>
      -- add_turn raises ValueError on an unknown session; the except
      -- clause then emits RUN_FAILED and saves again
      failRun st runId events ("Session not found: " ++ sid)
    | some session =>
      let added := addTurnToSession session query ans runId
        (ans.tokens_used + ctx.tokens_used)
      ({ run_id := runId, status := status, decision := some decision
         answer :=
           if blocked = false ∨ workflow.fail_on_judge_block = false then some ans
           else none
         judge_report := judged
         session_id := some sid
         turn_number := some added.2
         history_compacted := compacted },
       { st with sessions := updateSession st.sessions sid added.1 })
  else
    ({ run_id := runId, status := status, decision := some decision
       answer :=
         if blocked = false ∨ workflow.fail_on_judge_block = false then some ans
         else none
       judge_report := judged
       session_id := if isChat then some sid else none
       turn_number := none
       history_compacted := if isChat then compacted else false }, st)

/-- Body of the `try` block of `execute_run`: emit RUN_STARTED, run
retrieval, fusion, context compilation, generation and (optionally) the
judge, emitting stage events; any stage exception falls to `failRun`. -/
def runPipeline (st : OrchState) (stages : Stages) (runId query : String)
    (workflow : WorkflowProfile) (isChat : Bool) (sid : String)
    (compacted : Bool) (events : List Event) : RunResult × OrchState :=
  let events := events ++ [mkEvent runId .RUN_STARTED "run_started"]
  let events := events ++ [mkEvent runId .RETRIEVAL_STARTED "retrieval"]
  match stages.retrieval with
  | .error e => failRun st runId events e
  | .ok bundle =>
    match stages.fusionStage bundle with
    | .error e => failRun st runId events e
    | .ok fused =>
      let events := events ++ [mkEvent runId .FUSION_COMPLETED "fusion"]
      match stages.contextStage fused with
      | .error e => failRun st runId events e
      | .ok ctx =>
        let events := events ++ [mkEvent runId .CONTEXT_COMPILED "context"]
        match stages.generationStage ctx with
        | .error e => failRun st runId events e
        | .ok ans =>
          let events := events ++ [mkEvent runId .GENERATION_COMPLETED "generation"]
          if "judge_validation" ∈ workflow.steps then
            let events := events ++ [mkEvent runId .JUDGE_STARTED "judge"]
            match stages.judgeStage ctx ans with
            | .error e => failRun st runId events e
            | .ok report =>
              let events := events ++ [mkEvent runId .JUDGE_COMPLETED "judge"]
              finishRun st runId workflow query isChat sid compacted events
                ctx ans (some report)
          else
            finishRun st runId workflow query isChat sid compacted events
              ctx ans none

/-- Source `RunOrchestrator.execute_run`.  The run directory is created and the
in-memory event list cleared up front; in chat mode the quit command
short-circuits before any pipeline stage (deleting a truthy session id and
emitting — but never persisting — CHAT_SESSION_TERMINATED), then the
session is resolved and the compaction check runs; finally the pipeline
body executes under the `try`. -/
def executeRun (st : OrchState) (stages : Stages) (runId query : String)
    (workflow : WorkflowProfile) (chatProfile : ChatProfile) (mode : String)
    (sessionId : Option String) (chatProfileId : String) :
    RunResult × OrchState :=
  let st := { st with runDirs := runId :: st.runDirs }
  let events : List Event := []
  let isChat := mode = "chat"
  if isChat ∧ checkQuitCommand query then
    let sid := sessionId.getD ""
    let st :=
      if sid ≠ "" then { st with sessions := deleteSession st.sessions sid }
      else st
    -- the CHAT_SESSION_TERMINATED event is appended to the in-memory list
    -- only; execute_run returns here without reaching any _save_events
    ({ run_id := runId, status := "terminated", session_id := sessionId,
       message := some "Chat session terminated" }, st)
  else
    if isChat then
      let resolved := resolveSession st stages runId workflow.workflow_id
        chatProfileId sessionId events
      let sid := resolved.1
      let st := resolved.2.1
      let events := resolved.2.2
      match getSession st.sessions sid with
      | none =>
        -- unreachable: the session was just resolved or created
        runPipeline st stages runId query workflow isChat sid false events
      | some session =>
        let cc := checkAndCompact stages.summarize session chatProfile
        let st := { st with sessions := updateSession st.sessions sid cc.2 }
        let events :=
          if cc.1 then events ++ [mkEvent runId .CHAT_COMPACTED "chat_compaction"]
          else events
        runPipeline st stages runId query workflow isChat sid cc.1 events
    else
      runPipeline st stages runId query workflow isChat "" false events

/-- Terminal statuses scanned by `get_run`. -/
def terminalStatus : EventType → Option String
  | .RUN_FAILED => some "failed"
  | .RUN_BLOCKED => some "blocked"
  | .RUN_COMPLETED => some "completed"
  | .CHAT_SESSION_TERMINATED => some "terminated"
  | _ => none

/-- Scan for the first terminal event (applied to the reversed log). -/
def statusScan : List Event → String
  | [] => "unknown"
  | e :: rest =>
    match terminalStatus e.event_type with
    | some s => s
    | none => statusScan rest

/-- Status derivation of `get_run`: the most recent terminal event wins; a
log without one — including a missing log — yields "unknown". -/
def deriveStatus (events : List Event) : String :=
  statusScan events.reverse

/-- Source `get_run_events`: the persisted log, `[]` when the file is missing. -/
def getRunEvents (st : OrchState) (runId : String) : List Event :=
  (savedLookup st.savedRuns runId).getD []

/-- View returned by `get_run`. -/
structure RunView where
  run_id : String
  status : String
  events : List Event
deriving DecidableEq, Repr

/-- Source `RunOrchestrator.get_run`: `none` when the run directory does not
exist, else the status derived from the persisted event log. -/
def getRun (st : OrchState) (runId : String) : Option RunView :=
  if runId ∈ st.runDirs then
    some { run_id := runId, status := deriveStatus (getRunEvents st runId),
           events := getRunEvents st runId }
  else none

/-!
### Concrete material for the judge claims
-/

/-- A check evaluator that always raises (an LLM-backed check whose call
fails). -/
def raisingEval : CheckEval := fun _ _ _ _ _ => .error "llm timeout"

/-- A check evaluator that always succeeds with a fixed score. -/
def constEval (q : ℚ) : CheckEval := fun _ _ _ _ _ => .ok { score := q, message := "" }

/-- A disabled check configuration. -/
def offConfig : CheckConfig := { enabled := false, threshold := 1, hard_fail := false }

/-- A sample answer. -/
def plainAnswer : Answer := { answer := "hi", citations := [], tokens_used := 5, cost := 0 }

/-- Check table in which only the relevance check errors. -/
def tableRelevanceErr : CheckTable :=
  { citation_coverage := citationCoverageEval, groundedness := constEval 1
    hallucination := constEval 1, relevance := raisingEval
    consistency := constEval 1, toxicity := constEval 1
    pii_leakage := constEval 1, bias := constEval 1, contradiction := constEval 1 }

/-- Profile enabling only relevance (non-hard) and toxicity. -/
def profileRelTox : JudgeProfile :=
  { citation_coverage := offConfig
    groundedness := offConfig, hallucination := offConfig
    relevance := { enabled := true, threshold := 1, hard_fail := false }
    consistency := offConfig
    toxicity := { enabled := true, threshold := 1, hard_fail := false }
    pii_leakage := offConfig, bias := offConfig, contradiction := offConfig }

/-- Check table in which only the groundedness check errors. -/
def tableGroundErr : CheckTable :=
  { citation_coverage := citationCoverageEval, groundedness := raisingEval
    hallucination := constEval 1, relevance := constEval 1
    consistency := constEval 1, toxicity := constEval 1
    pii_leakage := constEval 1, bias := constEval 1, contradiction := constEval 1 }

/-- Profile enabling only groundedness, configured hard_fail. -/
def profileGroundHard : JudgeProfile :=
  { citation_coverage := offConfig
    groundedness := { enabled := true, threshold := 1, hard_fail := true }
    hallucination := offConfig, relevance := offConfig, consistency := offConfig
    toxicity := offConfig, pii_leakage := offConfig, bias := offConfig
    contradiction := offConfig }

/-- C1: the error-to-ERROR conversion of `_run_check` at a sample config. -/
def errCheckConfig : CheckConfig := { enabled := true, threshold := 1, hard_fail := false }

/-- C8 witness profile: citation coverage enabled, hard-fail, strict. -/
def profileCitHard : JudgeProfile :=
  { citation_coverage := { enabled := true, threshold := 1, hard_fail := true }
    groundedness := offConfig, hallucination := offConfig, relevance := offConfig
    consistency := offConfig, toxicity := offConfig, pii_leakage := offConfig
    bias := offConfig, contradiction := offConfig }

/-- C8 counterexample profile: citation coverage enabled and hard-fail but
with the (permitted) threshold 0.0. -/
def profileCitZeroThr : JudgeProfile :=
  { citation_coverage := { enabled := true, threshold := 0, hard_fail := true }
    groundedness := offConfig, hallucination := offConfig, relevance := offConfig
    consistency := offConfig, toxicity := offConfig, pii_leakage := offConfig
    bias := offConfig, contradiction := offConfig }

/-!
### Concrete material for the fusion claims
-/

/-- Scenario-B fusion profile: weights 1,1,1 and k = 60. -/
def scenarioBProfile : FusionProfile :=
  { vector_weight := 1, document_weight := 1, graph_weight := 1, rrf_k := 60
    max_chunks_per_doc := 3, min_distinct_docs := 2, dedup_threshold := 0
    apply_diversity_constraints := true, final_top_k := 20 }

/-- Scenario-B vector list: one chunk at rank 1. -/
def scenarioBVector : List VectorResult :=
  [{ chunk_id := "c1", score := 1, rank := 1, metadata := [] }]

/-- Scenario-B keyword list: the same chunk at rank 1. -/
def scenarioBDoc : List DocumentResult :=
  [{ chunk_id := "c1", score := 1, rank := 1, metadata := [] }]

/-- Scenario-B graph list: the same chunk at rank 1. -/
def scenarioBGraph : List GraphResult :=
  [{ chunk_id := "c1", score := 1, rank := 1, entity_ids := [], metadata := [] }]

/-- Diversity-off profile (integer-valued RRF contributions: 6/(1+r)). -/
def divOffProfile : FusionProfile :=
  { vector_weight := 6, document_weight := 6, graph_weight := 6, rrf_k := 1
    max_chunks_per_doc := 1, min_distinct_docs := 1, dedup_threshold := 1
    apply_diversity_constraints := false, final_top_k := 5 }

/-- Two chunks of the same document at vector ranks 1 and 2. -/
def sameDocVector : List VectorResult :=
  [{ chunk_id := "c1", score := 1, rank := 1, metadata := [("doc_id", "d")] },
   { chunk_id := "c2", score := 1, rank := 2, metadata := [("doc_id", "d")] }]

/-- Profile with the dedup threshold at its permitted maximum 1.0 (dedup
skipped) and diversity off. -/
def dedupOffProfile : FusionProfile :=
  { vector_weight := 6, document_weight := 6, graph_weight := 6, rrf_k := 1
    max_chunks_per_doc := 3, min_distinct_docs := 1, dedup_threshold := 1
    apply_diversity_constraints := false, final_top_k := 5 }

/-- Two distinct chunks carrying the same non-empty text. -/
def sameTextVector : List VectorResult :=
  [{ chunk_id := "c1", score := 1, rank := 1, metadata := [("text", "dup")] },
   { chunk_id := "c2", score := 1, rank := 2, metadata := [("text", "dup")] }]

/-- C4 witness: the theorem instantiated at a concrete store, candidate
list, tokenizer and profile. -/
def witnessTok : String → ℕ := fun s => s.length

/-- C4 witness redaction pass: the identity transformation. -/
def witnessRedact : String → String × List String := fun s => (s, [])

/-- C4 witness context profile. -/
def witnessContextProfile : ContextProfile :=
  { max_context_tokens := 600, citation_format := "inline"
    include_page_numbers := true, include_doc_metadata := true
    redact_pii := true, reserve_tokens_for_query := 50
    reserve_tokens_for_instructions := 50 }

/-- C4 witness store content. -/
def witnessStore : List StoreChunk :=
  [{ chunk_id := "c1", doc_id := "d1", text := "alpha beta", page_no := 1 },
   { chunk_id := "c2", doc_id := "d1", text := "gamma delta", page_no := 2 }]

/-- C4 witness fused candidates. -/
def witnessFused : List FusedEntry :=
  [{ chunk_id := "c1", rrf_score := 1, vector_score := 1, document_score := 0
     graph_score := 0, entity_ids := [], metadata := [], final_rank := 1 },
   { chunk_id := "c2", rrf_score := 0, vector_score := 0, document_score := 0
     graph_score := 0, entity_ids := [], metadata := [], final_rank := 2 }]

/-!
### Concrete material for the chat and orchestrator claims
-/

/-- A sample chat turn. -/
def mkTurn (n : ℕ) (tk : ℕ) : ChatTurn :=
  { turn_number := n, query := "q", answer := plainAnswer, run_id := "r",
    tokens := tk }

/-- Chat profile with max_history_turns 4 (keep = 2 after compaction). -/
def witnessChatProfile : ChatProfile :=
  { compaction_threshold_tokens := 500, max_history_turns := 4
    summarization_max_tokens := 100, include_summary_in_context := true
    reserve_tokens_for_history := 800 }

/-- Session with three 200-token turns (600 tokens in history). -/
def witnessChatSession : ChatSession :=
  { session_id := "s1"
    history := { turns := [mkTurn 1 200, mkTurn 2 200, mkTurn 3 200]
                 total_turns := 3 }
    total_tokens := 600 }

/-- Chat profile whose token trigger fires while the turn count stays at or
below keep = max(1, 10/2) = 5. -/
def cexChatProfile : ChatProfile :=
  { compaction_threshold_tokens := 500, max_history_turns := 10
    summarization_max_tokens := 100, include_summary_in_context := true
    reserve_tokens_for_history := 800 }

/-- Pipeline stages for runs that never get past the quit short-circuit. -/
def dummyStages : Stages :=
  { retrieval := .error "offline", fusionStage := fun _ => .error "offline"
    contextStage := fun _ => .error "offline"
    generationStage := fun _ => .error "offline"
    judgeStage := fun _ _ => .error "offline", summarize := .error "offline"
    newSessionId := "fresh-id" }

/-- Orchestrator state holding one live session "s1". -/
def quitState : OrchState :=
  { sessions := [("s1", { session_id := "s1" })], savedRuns := [], runDirs := [] }

/-- A workflow profile for the orchestrator claims. -/
def defaultWorkflow : WorkflowProfile :=
  { workflow_id := "default_workflow", steps := ["judge_validation"]
    enable_graph_retrieval := true, fail_on_judge_block := true }

/-!
### Aggregation lemmas for `_compile_report`
-/

theorem analyzeChecks_passed_iff (rs : List CheckResult) :
    (analyzeChecks rs).2.1 = true ↔ ∀ r ∈ rs, r.status ≠ .FAIL := by
  induction rs with
  | nil => simp [analyzeChecks]
  | cons r rest ih =>
    by_cases h : r.status = .FAIL
    · simp [analyzeChecks, h]
    · simp [analyzeChecks, h, ih]

theorem analyzeChecks_blocked_iff (rs : List CheckResult) :
    (analyzeChecks rs).2.2 = true ↔ ∃ r ∈ rs, r.status = .FAIL ∧ r.hard_fail = true := by
  induction rs with
  | nil => simp [analyzeChecks]
  | cons r rest ih =>
    by_cases h : r.status = .FAIL
    · by_cases hf : r.hard_fail = true
      · simp [analyzeChecks, h, hf]
      · simp [analyzeChecks, h, hf, ih]
    · simp [analyzeChecks, h, ih]

theorem analyzeChecks_violation_of_fail {rs : List CheckResult} {r : CheckResult}
    (hmem : r ∈ rs) (hfail : r.status = .FAIL) :
    violationOf r ∈ (analyzeChecks rs).1 := by
  induction rs with
  | nil => cases hmem
  | cons x rest ih =>
    rcases List.mem_cons.mp hmem with hx | hx
    · subst hx
      simp [analyzeChecks, hfail]
    · by_cases h : x.status = .FAIL
      · simp only [analyzeChecks, h, if_pos rfl]
        exact List.mem_cons_of_mem _ (ih hx)
      · simpa [analyzeChecks, h] using ih hx

theorem compileReport_passed_iff (rs : List CheckResult) :
    (compileReport rs).passed = true ↔ ∀ r ∈ rs, r.status ≠ .FAIL := by
  simpa [compileReport] using analyzeChecks_passed_iff rs

theorem compileReport_blocked_iff (rs : List CheckResult) :
    (compileReport rs).decision = .FAIL_BLOCKED ↔
      ∃ r ∈ rs, r.status = .FAIL ∧ r.hard_fail = true := by
  rw [← analyzeChecks_blocked_iff]
  by_cases hb : (analyzeChecks rs).2.2 = true
  · simp [compileReport, hb]
  · by_cases hp : (analyzeChecks rs).2.1 = false
    · simp [compileReport, hb, hp]
    · simp [compileReport, hb, hp]

theorem compileReport_pass_iff (rs : List CheckResult) :
    (compileReport rs).decision = .PASS ↔ ∀ r ∈ rs, r.status ≠ .FAIL := by
  constructor
  · intro h r hmem hfail
    have hp : (analyzeChecks rs).2.1 = false := by
      cases h1 : (analyzeChecks rs).2.1
      · rfl
      · exact absurd hfail ((analyzeChecks_passed_iff rs).mp h1 r hmem)
    by_cases hb : (analyzeChecks rs).2.2 = true
    · simp [compileReport, hb] at h
    · simp [compileReport, hb, hp] at h
  · intro h
    have hp : (analyzeChecks rs).2.1 = true := (analyzeChecks_passed_iff rs).mpr h
    have hb : (analyzeChecks rs).2.2 ≠ true := by
      intro hb
      obtain ⟨r, hmem, hfail, _⟩ := (analyzeChecks_blocked_iff rs).mp hb
      exact h r hmem hfail
    simp [compileReport, hb, hp]

theorem compileReport_checks (rs : List CheckResult) :
    (compileReport rs).checks = rs := rfl

theorem accOf_updScore (m : List (String × ScoreAcc)) (c c' : String) (f : ScoreAcc → ScoreAcc) :
    accOf (updScore m c f) c' = if c = c' then f (accOf m c) else accOf m c' := by
  induction m with
  | nil =>
    by_cases h : c = c' <;> simp [updScore, accOf, h]
  | cons kv rest ih =>
    obtain ⟨k, v⟩ := kv
    by_cases hk : k = c
    · subst hk
      by_cases h : k = c' <;> simp [updScore, accOf, h]
    · by_cases h : k = c'
      · subst h
        have hc : ¬ c = k := fun hcc => hk hcc.symm
        simp [updScore, accOf, hk, hc]
      · simp [updScore, accOf, hk, h, ih]

theorem addVectorResults_rrf (p : FusionProfile) (l : List VectorResult) :
    ∀ (m : List (String × ScoreAcc)) (c : String),
      (accOf (addVectorResults p m l) c).rrf_score
        = (accOf m c).rrf_score + vectorContrib p l c := by
  induction l with
  | nil => intro m c; simp [addVectorResults, vectorContrib]
  | cons r rest ih =>
    intro m c
    rw [addVectorResults, ih, accOf_updScore]
    by_cases h : r.chunk_id = c
    · rw [if_pos h]
      have hf : (vectorContrib p (r :: rest) c)
          = p.vector_weight / ((p.rrf_k : ℚ) + (r.rank : ℚ)) + vectorContrib p rest c := by
        simp [vectorContrib, List.filter_cons, h]
      rw [hf, h]
      ring
    · rw [if_neg h]
      have hf : (vectorContrib p (r :: rest) c) = vectorContrib p rest c := by
        simp [vectorContrib, List.filter_cons, h]
      rw [hf]

theorem addDocumentResults_rrf (p : FusionProfile) (l : List DocumentResult) :
    ∀ (m : List (String × ScoreAcc)) (c : String),
      (accOf (addDocumentResults p m l) c).rrf_score
        = (accOf m c).rrf_score + documentContrib p l c := by
  induction l with
  | nil => intro m c; simp [addDocumentResults, documentContrib]
  | cons r rest ih =>
    intro m c
    rw [addDocumentResults, ih, accOf_updScore]
    by_cases h : r.chunk_id = c
    · rw [if_pos h]
      have hf : (documentContrib p (r :: rest) c)
          = p.document_weight / ((p.rrf_k : ℚ) + (r.rank : ℚ)) + documentContrib p rest c := by
        simp [documentContrib, List.filter_cons, h]
      rw [hf, h]
      ring
    · rw [if_neg h]
      have hf : (documentContrib p (r :: rest) c) = documentContrib p rest c := by
        simp [documentContrib, List.filter_cons, h]
      rw [hf]

theorem addGraphResults_rrf (p : FusionProfile) (l : List GraphResult) :
    ∀ (m : List (String × ScoreAcc)) (c : String),
      (accOf (addGraphResults p m l) c).rrf_score
        = (accOf m c).rrf_score + graphContrib p l c := by
  induction l with
  | nil => intro m c; simp [addGraphResults, graphContrib]
  | cons r rest ih =>
    intro m c
    rw [addGraphResults, ih, accOf_updScore]
    by_cases h : r.chunk_id = c
    · rw [if_pos h]
      have hf : (graphContrib p (r :: rest) c)
          = p.graph_weight / ((p.rrf_k : ℚ) + (r.rank : ℚ)) + graphContrib p rest c := by
        simp [graphContrib, List.filter_cons, h]
      rw [hf, h]
      ring
    · rw [if_neg h]
      have hf : (graphContrib p (r :: rest) c) = graphContrib p rest c := by
        simp [graphContrib, List.filter_cons, h]
      rw [hf]

theorem chunkScores_rrf (p : FusionProfile) (v : List VectorResult)
    (d : List DocumentResult) (g : List GraphResult) (c : String) :
    (accOf (chunkScores p v d g) c).rrf_score
      = vectorContrib p v c + documentContrib p d c + graphContrib p g c := by
  unfold chunkScores
  rw [addGraphResults_rrf, addDocumentResults_rrf, addVectorResults_rrf]
  have h0 : (accOf [] c).rrf_score = 0 := rfl
  rw [h0]
  ring

theorem mem_keys_updScore {m : List (String × ScoreAcc)} {c x : String}
    {f : ScoreAcc → ScoreAcc} (hx : x ∈ (updScore m c f).map (·.1)) :
    x ∈ m.map (·.1) ∨ x = c := by
  induction m with
  | nil => simpa [updScore] using hx
  | cons kv rest ih =>
    obtain ⟨k, v⟩ := kv
    by_cases hk : k = c
    · subst hk
      exact Or.inl (by simpa [updScore] using hx)
    · simp only [updScore, if_neg hk, List.map_cons, List.mem_cons] at hx
      rcases hx with h | h
      · exact Or.inl (by simp [h])
      · rcases ih h with h' | h'
        · exact Or.inl (by simp [h'])
        · exact Or.inr h'

theorem nodup_keys_updScore {m : List (String × ScoreAcc)} {c : String}
    {f : ScoreAcc → ScoreAcc} (hm : (m.map (·.1)).Nodup) :
    ((updScore m c f).map (·.1)).Nodup := by
  induction m with
  | nil => simp [updScore]
  | cons kv rest ih =>
    obtain ⟨k, v⟩ := kv
    simp only [List.map_cons, List.nodup_cons] at hm
    by_cases hk : k = c
    · subst hk
      simpa [updScore] using hm
    · simp only [updScore, if_neg hk, List.map_cons, List.nodup_cons]
      refine ⟨fun hmem => ?_, ih hm.2⟩
      rcases mem_keys_updScore hmem with h | h
      · exact hm.1 h
      · exact hk h

theorem nodup_keys_addVector (p : FusionProfile) (l : List VectorResult) :
    ∀ m : List (String × ScoreAcc), (m.map (·.1)).Nodup →
      ((addVectorResults p m l).map (·.1)).Nodup := by
  induction l with
  | nil => intro m hm; simpa [addVectorResults] using hm
  | cons r rest ih =>
    intro m hm
    exact ih _ (nodup_keys_updScore hm)

theorem nodup_keys_addDocument (p : FusionProfile) (l : List DocumentResult) :
    ∀ m : List (String × ScoreAcc), (m.map (·.1)).Nodup →
      ((addDocumentResults p m l).map (·.1)).Nodup := by
  induction l with
  | nil => intro m hm; simpa [addDocumentResults] using hm
  | cons r rest ih =>
    intro m hm
    exact ih _ (nodup_keys_updScore hm)

theorem nodup_keys_addGraph (p : FusionProfile) (l : List GraphResult) :
    ∀ m : List (String × ScoreAcc), (m.map (·.1)).Nodup →
      ((addGraphResults p m l).map (·.1)).Nodup := by
  induction l with
  | nil => intro m hm; simpa [addGraphResults] using hm
  | cons r rest ih =>
    intro m hm
    exact ih _ (nodup_keys_updScore hm)

theorem nodup_keys_chunkScores (p : FusionProfile) (v : List VectorResult)
    (d : List DocumentResult) (g : List GraphResult) :
    ((chunkScores p v d g).map (·.1)).Nodup := by
  unfold chunkScores
  exact nodup_keys_addGraph p g _ (nodup_keys_addDocument p d _
    (nodup_keys_addVector p v [] (by simp)))

theorem accOf_of_mem {m : List (String × ScoreAcc)} {c : String} {a : ScoreAcc}
    (hm : (m.map (·.1)).Nodup) (hmem : (c, a) ∈ m) : accOf m c = a := by
  induction m with
  | nil => cases hmem
  | cons kv rest ih =>
    obtain ⟨k, v⟩ := kv
    simp only [List.map_cons, List.nodup_cons] at hm
    rcases List.mem_cons.mp hmem with h | h
    · injection h with h1 h2
      subst h1
      subst h2
      simp [accOf]
    · have hk : k ≠ c := by
        intro hkc
        subst hkc
        exact hm.1 (by simpa using List.mem_map_of_mem (·.1) h)
      simp only [accOf, if_neg hk]
      exact ih hm.2 h

theorem entriesOf_rrf {p : FusionProfile} {v : List VectorResult}
    {d : List DocumentResult} {g : List GraphResult} {e : FusedEntry}
    (he : e ∈ entriesOf (chunkScores p v d g)) :
    e.rrf_score = vectorContrib p v e.chunk_id + documentContrib p d e.chunk_id
      + graphContrib p g e.chunk_id := by
  obtain ⟨⟨c, a⟩, hmem, rfl⟩ := List.mem_map.mp he
  have ha : accOf (chunkScores p v d g) c = a :=
    accOf_of_mem (nodup_keys_chunkScores p v d g) hmem
  have := chunkScores_rrf p v d g c
  rw [ha] at this
  simpa using this

theorem mem_insertDesc {e x : FusedEntry} {l : List FusedEntry} :
    x ∈ insertDesc e l ↔ x = e ∨ x ∈ l := by
  induction l with
  | nil => simp [insertDesc]
  | cons y ys ih =>
    by_cases h : y.rrf_score < e.rrf_score
    · simp [insertDesc, h]
    · simp only [insertDesc, if_neg h, List.mem_cons, ih]
      tauto

theorem insertDesc_perm (e : FusedEntry) (l : List FusedEntry) :
    List.Perm (insertDesc e l) (e :: l) := by
  induction l with
  | nil => simp [insertDesc]
  | cons y ys ih =>
    by_cases h : y.rrf_score < e.rrf_score
    · simp [insertDesc, h]
    · have h1 : insertDesc e (y :: ys) = y :: insertDesc e ys := by simp [insertDesc, h]
      rw [h1]
      exact List.Perm.trans (List.Perm.cons y ih) (List.Perm.swap e y ys)

theorem sortByScore_perm (l : List FusedEntry) : List.Perm (sortByScore l) l := by
  induction l with
  | nil => simp [sortByScore]
  | cons e rest ih =>
    exact List.Perm.trans (insertDesc_perm e (sortByScore rest)) (List.Perm.cons e ih)

theorem insertDesc_sorted (e : FusedEntry) {l : List FusedEntry}
    (h : l.Pairwise (fun a b => b.rrf_score ≤ a.rrf_score)) :
    (insertDesc e l).Pairwise (fun a b => b.rrf_score ≤ a.rrf_score) := by
  induction l with
  | nil => simp [insertDesc]
  | cons x xs ih =>
    by_cases hx : x.rrf_score < e.rrf_score
    · simp only [insertDesc, if_pos hx]
      refine List.Pairwise.cons ?_ h
      intro y hy
      rcases List.mem_cons.mp hy with rfl | hy'
      · exact le_of_lt hx
      · exact le_trans (List.rel_of_pairwise_cons h hy') (le_of_lt hx)
    · simp only [insertDesc, if_neg hx]
      refine List.Pairwise.cons ?_ (ih (List.Pairwise.of_cons h))
      intro y hy
      rcases mem_insertDesc.mp hy with rfl | hy'
      · exact le_of_not_lt hx
      · exact List.rel_of_pairwise_cons h hy'

theorem sortByScore_sorted (l : List FusedEntry) :
    (sortByScore l).Pairwise (fun a b => b.rrf_score ≤ a.rrf_score) := by
  induction l with
  | nil => simp [sortByScore]
  | cons e rest ih => exact insertDesc_sorted e ih

theorem diversityLoop_sublist (maxPerDoc : ℕ) :
    ∀ (l : List FusedEntry) (counts : List (String × ℕ)),
      (diversityLoop maxPerDoc counts l).Sublist l := by
  intro l
  induction l with
  | nil => intro counts; simp [diversityLoop]
  | cons e rest ih =>
    intro counts
    rw [diversityLoop]
    cases hdoc : entryDocId e with
    | none => exact List.Sublist.cons₂ e (ih counts)
    | some dd =>
      by_cases hc : countsGet counts dd < maxPerDoc
      · simp only [if_pos hc]
        exact List.Sublist.cons₂ e (ih (countsInc counts dd))
      · simp only [if_neg hc]
        exact List.Sublist.cons e (ih counts)

theorem dedupLoop_sublist : ∀ (l : List FusedEntry) (seen : List String),
    (dedupLoop seen l).Sublist l := by
  intro l
  induction l with
  | nil => intro seen; simp [dedupLoop]
  | cons e rest ih =>
    intro seen
    rw [dedupLoop]
    by_cases h1 : metaText e.metadata = ""
    · simp only [if_pos h1]
      exact List.Sublist.cons₂ e (ih seen)
    · simp only [if_neg h1]
      by_cases h2 : metaText e.metadata ∈ seen
      · simp only [if_pos h2]
        exact List.Sublist.cons e (ih seen)
      · simp only [if_neg h2]
        exact List.Sublist.cons₂ e (ih _)

theorem dedupResults_sublist (threshold : ℚ) (l : List FusedEntry) :
    (dedupResults threshold l).Sublist l := by
  unfold dedupResults
  by_cases h : threshold ≥ 1
  · simp [h]
  · simp only [if_neg h]
    exact dedupLoop_sublist l []

theorem countsGet_countsInc (counts : List (String × ℕ)) (d d' : String) :
    countsGet (countsInc counts d') d
      = if d' = d then countsGet counts d + 1 else countsGet counts d := by
  induction counts with
  | nil =>
    by_cases h : d' = d <;> simp [countsInc, countsGet, h]
  | cons kv rest ih =>
    obtain ⟨k, n⟩ := kv
    by_cases hk : k = d'
    · subst hk
      by_cases h : k = d
      · subst h; simp [countsInc, countsGet]
      · have : ¬ k = d := h
        simp [countsInc, countsGet, this]
    · by_cases h : k = d
      · subst h
        have hne : ¬ d' = k := fun hh => hk hh.symm
        simp [countsInc, countsGet, hk, hne]
      · simp [countsInc, countsGet, hk, h, ih]

theorem diversityLoop_cap (maxPerDoc : ℕ) (dd : String) :
    ∀ (l : List FusedEntry) (counts : List (String × ℕ)),
      (diversityLoop maxPerDoc counts l).countP (fun e => entryDocId e = some dd)
        ≤ maxPerDoc - countsGet counts dd := by
  intro l
  induction l with
  | nil => intro counts; simp [diversityLoop]
  | cons e rest ih =>
    intro counts
    rw [diversityLoop]
    cases hdoc : entryDocId e with
    | none =>
      have h0 : (List.countP (fun e => decide (entryDocId e = some dd))
          (e :: diversityLoop maxPerDoc counts rest))
          = List.countP (fun e => decide (entryDocId e = some dd))
            (diversityLoop maxPerDoc counts rest) := by
        simp [List.countP_cons, hdoc]
      rw [h0]
      exact ih counts
    | some d =>
      by_cases hc : countsGet counts d < maxPerDoc
      · simp only [if_pos hc]
        by_cases hd : d = dd
        · subst hd
          have h1 : (List.countP (fun e => decide (entryDocId e = some d))
              (e :: diversityLoop maxPerDoc (countsInc counts d) rest))
              = List.countP (fun e => decide (entryDocId e = some d))
                (diversityLoop maxPerDoc (countsInc counts d) rest) + 1 := by
            simp [List.countP_cons, hdoc]
          rw [h1]
          have hrec := ih (countsInc counts d)
          rw [countsGet_countsInc, if_pos rfl] at hrec
          omega
        · have h1 : (List.countP (fun e => decide (entryDocId e = some dd))
              (e :: diversityLoop maxPerDoc (countsInc counts d) rest))
              = List.countP (fun e => decide (entryDocId e = some dd))
                (diversityLoop maxPerDoc (countsInc counts d) rest) := by
            simp [List.countP_cons, hdoc, hd]
          rw [h1]
          have hrec := ih (countsInc counts d)
          rw [countsGet_countsInc, if_neg hd] at hrec
          omega
      · simp only [if_neg hc]
        exact ih counts

theorem dedupLoop_not_seen : ∀ (l : List FusedEntry) (seen : List String)
    (e : FusedEntry), e ∈ dedupLoop seen l → metaText e.metadata ≠ "" →
    metaText e.metadata ∉ seen := by
  intro l
  induction l with
  | nil => intro seen e he; cases he
  | cons x rest ih =>
    intro seen e he hne
    rw [dedupLoop] at he
    by_cases h1 : metaText x.metadata = ""
    · rw [if_pos h1] at he
      rcases List.mem_cons.mp he with rfl | he'
      · exact absurd h1 hne
      · exact ih seen e he' hne
    · rw [if_neg h1] at he
      by_cases h2 : metaText x.metadata ∈ seen
      · rw [if_pos h2] at he
        exact ih seen e he hne
      · rw [if_neg h2] at he
        rcases List.mem_cons.mp he with rfl | he'
        · exact h2
        · have := ih _ e he' hne
          intro hmem
          exact this (List.mem_cons_of_mem _ hmem)

theorem dedupLoop_pairwise : ∀ (l : List FusedEntry) (seen : List String),
    (dedupLoop seen l).Pairwise
      (fun a b => metaText a.metadata = metaText b.metadata → metaText a.metadata = "") := by
  intro l
  induction l with
  | nil => intro seen; simp [dedupLoop]
  | cons x rest ih =>
    intro seen
    rw [dedupLoop]
    by_cases h1 : metaText x.metadata = ""
    · rw [if_pos h1]
      exact List.Pairwise.cons (fun y _ _ => h1) (ih seen)
    · rw [if_neg h1]
      by_cases h2 : metaText x.metadata ∈ seen
      · rw [if_pos h2]
        exact ih seen
      · rw [if_neg h2]
        refine List.Pairwise.cons ?_ (ih _)
        intro y hy heq
        have := dedupLoop_not_seen rest _ y hy
        by_cases hye : metaText y.metadata = ""
        · rw [heq]; exact hye
        · exact absurd (heq ▸ List.mem_cons_self _ _) (heq ▸ this hye)

theorem mem_assignRanks : ∀ (n : ℕ) (l : List FusedEntry) (e : FusedEntry),
    e ∈ assignRanks n l → ∃ e₀ ∈ l, ∃ m, e = { e₀ with final_rank := m } := by
  intro n l
  induction l generalizing n with
  | nil => intro e he; cases he
  | cons x rest ih =>
    intro e he
    rcases List.mem_cons.mp he with rfl | he'
    · exact ⟨x, List.mem_cons_self x rest, n, rfl⟩
    · obtain ⟨e₀, hmem, m, rfl⟩ := ih (n + 1) e he'
      exact ⟨e₀, List.mem_cons_of_mem x hmem, m, rfl⟩

theorem assignRanks_pairwise {R : FusedEntry → FusedEntry → Prop}
    (hR : ∀ a b m k, R a b → R { a with final_rank := m } { b with final_rank := k }) :
    ∀ (n : ℕ) (l : List FusedEntry), l.Pairwise R → (assignRanks n l).Pairwise R := by
  intro n l
  induction l generalizing n with
  | nil => intro _; simp [assignRanks]
  | cons x rest ih =>
    intro h
    rw [assignRanks]
    refine List.Pairwise.cons ?_ (ih (n + 1) (List.Pairwise.of_cons h))
    intro y hy
    obtain ⟨e₀, hmem, m, rfl⟩ := mem_assignRanks (n + 1) rest y hy
    exact hR x e₀ n m (List.rel_of_pairwise_cons h hmem)

theorem assignRanks_countP (p : FusedEntry → Bool)
    (hp : ∀ e m, p { e with final_rank := m } = p e) :
    ∀ (n : ℕ) (l : List FusedEntry), (assignRanks n l).countP p = l.countP p := by
  intro n l
  induction l generalizing n with
  | nil => simp [assignRanks]
  | cons x rest ih =>
    rw [assignRanks, List.countP_cons, List.countP_cons, hp, ih]

/-!
### Citation-marker lemmas

A `[N]` marker found in a sentence-like unit of the answer is present in the
answer itself: `markerHere` inspects a bounded front of the text, the
sentence units are contiguous segments of the answer, and stripping only
shortens them from both ends.
-/

theorem dropWhile_append_of_ne_nil {p : Char → Bool} {l : List Char}
    (h : l.dropWhile p ≠ []) (b : List Char) :
    (l ++ b).dropWhile p = l.dropWhile p ++ b ∧
      (l ++ b).takeWhile p = l.takeWhile p := by
  induction l with
  | nil => exact absurd rfl h
  | cons c t ih =>
    by_cases hp : p c
    · have h' : t.dropWhile p ≠ [] := by
        simpa [List.dropWhile_cons, hp] using h
      obtain ⟨h1, h2⟩ := ih h'
      constructor
      · simpa [List.dropWhile_cons, hp] using h1
      · simpa [List.takeWhile_cons, hp] using h2
    · constructor
      · simp [List.dropWhile_cons, hp]
      · simp [List.takeWhile_cons, hp]

theorem markerHere_append {l : List Char} (h : markerHere l = true) (b : List Char) :
    markerHere (l ++ b) = true := by
  cases l with
  | nil => simp [markerHere] at h
  | cons c rest =>
    simp only [markerHere, Bool.and_eq_true] at h
    obtain ⟨⟨hc, hds⟩, hclose⟩ := h
    have hne : rest.dropWhile Char.isDigit ≠ [] := by
      intro hnil
      rw [hnil] at hclose
      simp [headIsClose] at hclose
    obtain ⟨h1, h2⟩ := dropWhile_append_of_ne_nil hne b
    have hcl : headIsClose (rest.dropWhile Char.isDigit ++ b) = true := by
      cases hx : rest.dropWhile Char.isDigit with
      | nil => exact absurd hx hne
      | cons x xs =>
        rw [hx] at hclose
        simpa [headIsClose] using hclose
    simp only [List.cons_append, markerHere, Bool.and_eq_true]
    exact ⟨⟨hc, by rw [h2]; exact hds⟩, by rw [h1]; exact hcl⟩

theorem hasMarker_append_right {m : List Char} (h : hasMarker m = true)
    (b : List Char) : hasMarker (m ++ b) = true := by
  induction m with
  | nil => simp [hasMarker] at h
  | cons c t ih =>
    rw [hasMarker] at h
    rcases Bool.or_eq_true .. |>.mp h with hh | ht
    · have := markerHere_append hh b
      rw [List.cons_append, hasMarker]
      rw [List.cons_append] at this
      exact Bool.or_eq_true .. |>.mpr (Or.inl this)
    · rw [List.cons_append, hasMarker]
      exact Bool.or_eq_true .. |>.mpr (Or.inr (ih ht))

theorem hasMarker_append_left {m : List Char} (h : hasMarker m = true)
    (a : List Char) : hasMarker (a ++ m) = true := by
  induction a with
  | nil => simpa using h
  | cons c t ih =>
    rw [List.cons_append, hasMarker]
    exact Bool.or_eq_true .. |>.mpr (Or.inr ih)

theorem hasMarker_of_segment {m l : List Char} (h : hasMarker m = true)
    (a b : List Char) (heq : a ++ (m ++ b) = l) : hasMarker l = true := by
  rw [← heq]
  exact hasMarker_append_left (hasMarker_append_right h b) a

/-- Every output of the sentence split is a contiguous segment of the
input, and the list is never empty. -/
theorem splitSentRaw_segments (l : List Char) :
    ∃ s ss, splitSentRaw l = s :: ss ∧ (∃ b, s ++ b = l) ∧
      ∀ x ∈ ss, ∃ a b, a ++ (x ++ b) = l := by
  induction l with
  | nil =>
    exact ⟨[], [], rfl, ⟨[], rfl⟩, by intro x hx; cases hx⟩
  | cons c rest ih =>
    obtain ⟨s', ss', heq, ⟨b', hb'⟩, hss⟩ := ih
    by_cases hc : isSentSep c = true
    · refine ⟨[], splitSentRaw rest, by simp [splitSentRaw, hc], ⟨c :: rest, rfl⟩, ?_⟩
      intro x hx
      rw [heq] at hx
      rcases List.mem_cons.mp hx with rfl | hx'
      · exact ⟨[c], b', by simp [hb']⟩
      · obtain ⟨a, b, hab⟩ := hss x hx'
        exact ⟨c :: a, b, by simp [hab]⟩
    · refine ⟨c :: s', ss', ?_, ⟨b', by simp [hb']⟩, ?_⟩
      · simp only [splitSentRaw, hc, Bool.false_eq_true, if_false, heq]
      · intro x hx
        obtain ⟨a, b, hab⟩ := hss x hx
        exact ⟨c :: a, b, by simp [hab]⟩

/-- Stripping yields a contiguous segment of the input. -/
theorem stripChars_segment (l : List Char) :
    ∃ a b, a ++ (stripChars l ++ b) = l := by
  unfold stripChars
  set d := l.dropWhile Char.isWhitespace with hd
  have h1 : l.takeWhile Char.isWhitespace ++ d = l :=
    List.takeWhile_append_dropWhile Char.isWhitespace l
  have h2 : d.reverse.takeWhile Char.isWhitespace ++ d.reverse.dropWhile Char.isWhitespace
      = d.reverse := List.takeWhile_append_dropWhile Char.isWhitespace d.reverse
  refine ⟨l.takeWhile Char.isWhitespace,
    (d.reverse.takeWhile Char.isWhitespace).reverse, ?_⟩
  have h3 : (d.reverse.dropWhile Char.isWhitespace).reverse
      ++ (d.reverse.takeWhile Char.isWhitespace).reverse = d := by
    rw [← List.reverse_append, h2, List.reverse_reverse]
  rw [h3, h1]

/-- With no `[N]` marker anywhere in the answer, no sentence-like unit has
one either, so the citation coverage score is `0.0`. -/
theorem coverageScore_zero {answer : String}
    (h : hasMarker answer.data = false) : coverageScore answer = 0 := by
  have hnone : ∀ s ∈ sentencesOf answer, ¬(hasMarker s = true) := by
    intro s hs hmark
    unfold sentencesOf at hs
    obtain ⟨s₀, hs₀, hstrip⟩ := List.mem_map.mp (List.mem_filter.mp hs).1
    obtain ⟨a, b, hab⟩ := stripChars_segment s₀
    rw [hstrip] at hab
    have hs₀m : hasMarker s₀ = true := hasMarker_of_segment hmark a b hab
    obtain ⟨t, ts, hts, ⟨b1, hb1⟩, hsegs⟩ := splitSentRaw_segments answer.data
    rw [hts] at hs₀
    rcases List.mem_cons.mp hs₀ with rfl | hs₀'
    · have := hasMarker_of_segment hs₀m [] b1 (by simpa using hb1)
      rw [h] at this
      cases this
    · obtain ⟨a2, b2, hab2⟩ := hsegs s₀ hs₀'
      have := hasMarker_of_segment hs₀m a2 b2 hab2
      rw [h] at this
      cases this
  have hcount : (sentencesOf answer).countP (fun s => hasMarker s) = 0 := by
    rw [List.countP_eq_zero]
    intro s hs
    simpa using hnone s hs
  unfold coverageScore
  simp only [hcount]
  by_cases hlen : (sentencesOf answer).length > 0
  · simp [hlen]
  · simp [hlen]

theorem analyzeChecks_violations_nil {rs : List CheckResult}
    (h : ∀ r ∈ rs, r.status ≠ CheckStatus.FAIL) : (analyzeChecks rs).1 = [] := by
  induction rs with
  | nil => simp [analyzeChecks]
  | cons r rest ih =>
    have hr : ¬ r.status = CheckStatus.FAIL := h r (List.mem_cons_self r rest)
    simp only [analyzeChecks, if_neg hr]
    exact ih (fun x hx => h x (List.mem_cons_of_mem r hx))

/-!
### Claim theorems: judge engine (C1, C2, C8)
-/

/-- C1 (amended): a check whose evaluate raises an exception yields a
CheckResult with status ERROR and score 0.0 carrying the check's own
configured hard_fail flag; in the aggregated decision, however, an errored
check does not count as a failure at all: whenever no check has status FAIL
— whatever mix of PASS and ERROR remains — the report has decision PASS,
passed = true and no violations, so an errored non-hard check leaves the
decision PASS (not FAIL_RETRYABLE) and an errored hard_fail-configured
check does not block. -/
theorem judge_error_check_conversion_and_aggregation
    (check_name : String) (config : CheckConfig) (e : String)
    (rs : List CheckResult) (hnf : ∀ r ∈ rs, r.status ≠ CheckStatus.FAIL) :
    runCheck check_name config (.error e) =
      { check_name := check_name, status := CheckStatus.ERROR, score := 0,
        threshold := config.threshold, hard_fail := config.hard_fail,
        message := "Check failed with error: " ++ e } ∧
    (compileReport rs).decision = JudgeDecision.PASS ∧
    (compileReport rs).passed = true ∧
    (compileReport rs).violations = [] := by
  refine ⟨rfl, (compileReport_pass_iff rs).mpr hnf,
    (compileReport_passed_iff rs).mpr hnf, ?_⟩
  show (analyzeChecks rs).1 = []
  exact analyzeChecks_violations_nil hnf

theorem judge_error_check_conversion_and_aggregation_witness :
    (compileReport [runCheck "relevance" errCheckConfig (.error "llm timeout")]).decision
        = JudgeDecision.PASS ∧
      (compileReport [runCheck "relevance" errCheckConfig (.error "llm timeout")]).passed
        = true :=
  ⟨(judge_error_check_conversion_and_aggregation "relevance" errCheckConfig
      "llm timeout" [runCheck "relevance" errCheckConfig (.error "llm timeout")]
      (by decide)).2.1,
   (judge_error_check_conversion_and_aggregation "relevance" errCheckConfig
      "llm timeout" [runCheck "relevance" errCheckConfig (.error "llm timeout")]
      (by decide)).2.2.1⟩

/-- C1 counterexample: with the relevance check erroring (non-hard) and the
toxicity check passing, `evaluate` returns decision PASS — not the
FAIL_RETRYABLE that the claim asserts; the errored check silently passes at
the decision level. -/
theorem judge_errored_check_passes_cex :
    (judgeEvaluate tableRelevanceErr profileRelTox "q" "ctx" plainAnswer).decision
        = JudgeDecision.PASS ∧
      JudgeDecision.PASS ≠ JudgeDecision.FAIL_RETRYABLE ∧
      (judgeEvaluate tableRelevanceErr profileRelTox "q" "ctx" plainAnswer).checks.any
        (fun r => r.status = CheckStatus.ERROR ∧ r.check_name = "relevance") = true := by
  refine ⟨by decide, by decide, by decide⟩

/-- C2 (amended): in every report produced by `JudgeOrchestrator.evaluate`:
`passed` is true exactly when no check has status FAIL (an ERRORed check
leaves `passed` true, so "every check has status PASS" is strictly stronger
and does not hold); the decision is FAIL_BLOCKED exactly when some check
with hard_fail = true has status FAIL; and the decision is PASS exactly
when no check has status FAIL. -/
theorem judge_report_aggregation_invariant (table : CheckTable)
    (profile : JudgeProfile) (query ctx : String) (ans : Answer) :
    ((judgeEvaluate table profile query ctx ans).passed = true ↔
      ∀ r ∈ (judgeEvaluate table profile query ctx ans).checks,
        r.status ≠ CheckStatus.FAIL) ∧
    ((judgeEvaluate table profile query ctx ans).decision = JudgeDecision.FAIL_BLOCKED ↔
      ∃ r ∈ (judgeEvaluate table profile query ctx ans).checks,
        r.status = CheckStatus.FAIL ∧ r.hard_fail = true) ∧
    ((judgeEvaluate table profile query ctx ans).decision = JudgeDecision.PASS ↔
      ∀ r ∈ (judgeEvaluate table profile query ctx ans).checks,
        r.status ≠ CheckStatus.FAIL) := by
  exact ⟨compileReport_passed_iff _, compileReport_blocked_iff _, compileReport_pass_iff _⟩

/-- C2 counterexample: an evaluation whose only (hard_fail-configured)
check errors produces a report with `passed = true` although not every
check has status PASS, and with decision PASS — refuting
`passed == (all checks PASS)` and `decision == PASS iff all checks PASS`
as stated. -/
theorem judge_report_passed_not_all_pass_cex :
    (judgeEvaluate tableGroundErr profileGroundHard "q" "ctx" plainAnswer).passed = true ∧
      ¬(∀ r ∈ (judgeEvaluate tableGroundErr profileGroundHard "q" "ctx" plainAnswer).checks,
          r.status = CheckStatus.PASS) ∧
      (judgeEvaluate tableGroundErr profileGroundHard "q" "ctx" plainAnswer).decision
        = JudgeDecision.PASS := by
  refine ⟨by decide, by decide, by decide⟩

/-- C8 (amended): for every judge profile whose citation_coverage check is
enabled, hard_fail-configured and has a positive threshold (a threshold of
0.0 is permitted by the model and would let a zero score pass), and every
check table carrying the deterministic citation-coverage check, an answer
containing zero `[N]` citation markers receives citation-coverage score
0.0, status FAIL, a violation of severity "high", and the overall decision
FAIL_BLOCKED. -/
theorem hard_fail_citation_coverage_blocks (table : CheckTable)
    (profile : JudgeProfile) (query ctx : String) (ans : Answer)
    (htab : table.citation_coverage = citationCoverageEval)
    (hen : profile.citation_coverage.enabled = true)
    (hhf : profile.citation_coverage.hard_fail = true)
    (hthr : 0 < profile.citation_coverage.threshold)
    (hm : hasMarker ans.answer.data = false) :
    ∃ cr ∈ (judgeEvaluate table profile query ctx ans).checks,
      cr.check_name = "citation_coverage" ∧ cr.score = 0 ∧
        cr.status = CheckStatus.FAIL ∧
        (∃ v ∈ (judgeEvaluate table profile query ctx ans).violations,
          v.check_name = "citation_coverage" ∧ v.severity = "high") ∧
        (judgeEvaluate table profile query ctx ans).decision
          = JudgeDecision.FAIL_BLOCKED := by
  have hscore : coverageScore ans.answer = 0 := coverageScore_zero hm
  have houtcome : table.citation_coverage query ctx ans.answer ans.citations
      profile.citation_coverage.threshold
      = .ok { score := coverageScore ans.answer, message := "Citation coverage" } := by
    rw [htab]; rfl
  set cr := runCheck "citation_coverage" profile.citation_coverage
    (table.citation_coverage query ctx ans.answer ans.citations
      profile.citation_coverage.threshold) with hcr
  have hlt : ¬ (coverageScore ans.answer ≥ profile.citation_coverage.threshold) := by
    rw [hscore]
    exact not_le.mpr hthr
  have hcrval : cr =
      ({ check_name := "citation_coverage"
         status := CheckStatus.FAIL
         score := 0
         threshold := profile.citation_coverage.threshold
         hard_fail := profile.citation_coverage.hard_fail
         message := "Citation coverage" } : CheckResult) := by
    rw [hcr, houtcome]
    simp only [runCheck]
    rw [if_neg hlt, hscore]
  have hfail : cr.status = CheckStatus.FAIL := by rw [hcrval]
  have hhard : cr.hard_fail = true := by rw [hcrval]; exact hhf
  have hmem : cr ∈ (judgeEvaluate table profile query ctx ans).checks := by
    simp only [judgeEvaluate, compileReport_checks]
    apply List.mem_append_left
    apply List.mem_append_left
    apply List.mem_append_left
    apply List.mem_append_left
    apply List.mem_append_left
    apply List.mem_append_left
    apply List.mem_append_left
    apply List.mem_append_left
    simp only [enabledCheck]
    rw [if_pos hen]
    exact List.mem_singleton.mpr hcr
  refine ⟨cr, hmem, by rw [hcrval], by rw [hcrval], hfail, ?_, ?_⟩
  · refine ⟨violationOf cr, ?_, by rw [hcrval]; rfl, ?_⟩
    · exact analyzeChecks_violation_of_fail hmem hfail
    · show severityOf cr = "high"
      unfold severityOf
      rw [hhard]
      simp
  · exact (compileReport_blocked_iff _).mpr ⟨cr, hmem, hfail, hhard⟩

theorem hard_fail_citation_coverage_blocks_witness :
    tableGroundErr.citation_coverage = citationCoverageEval ∧
    profileCitHard.citation_coverage.enabled = true ∧
    profileCitHard.citation_coverage.hard_fail = true ∧
    (0 : ℚ) < profileCitHard.citation_coverage.threshold ∧
    hasMarker plainAnswer.answer.data = false ∧
    ∃ cr ∈ (judgeEvaluate tableGroundErr profileCitHard "q" "ctx" plainAnswer).checks,
      cr.check_name = "citation_coverage" ∧ cr.score = 0 ∧
        cr.status = CheckStatus.FAIL ∧
        (∃ v ∈ (judgeEvaluate tableGroundErr profileCitHard "q" "ctx" plainAnswer).violations,
          v.check_name = "citation_coverage" ∧ v.severity = "high") ∧
        (judgeEvaluate tableGroundErr profileCitHard "q" "ctx" plainAnswer).decision
          = JudgeDecision.FAIL_BLOCKED :=
  ⟨rfl, rfl, rfl, by decide, by decide,
   hard_fail_citation_coverage_blocks tableGroundErr profileCitHard "q" "ctx"
     plainAnswer rfl rfl rfl (by decide) (by decide)⟩

/-- C8 counterexample: with citation_coverage enabled and hard_fail = true
but threshold 0.0 (which the data model permits), a marker-free answer
still scores 0.0 yet the check PASSes and the decision is PASS — refuting
the claim as universally stated over judge profiles. -/
theorem citation_coverage_zero_threshold_cex :
    profileCitZeroThr.citation_coverage.enabled = true ∧
      profileCitZeroThr.citation_coverage.hard_fail = true ∧
      hasMarker plainAnswer.answer.data = false ∧
      (∃ cr ∈ (judgeEvaluate tableGroundErr profileCitZeroThr "q" "ctx" plainAnswer).checks,
        cr.check_name = "citation_coverage" ∧ cr.score = 0 ∧
          cr.status = CheckStatus.PASS) ∧
      (judgeEvaluate tableGroundErr profileCitZeroThr "q" "ctx" plainAnswer).decision
        = JudgeDecision.PASS := by
  have hm : hasMarker plainAnswer.answer.data = false := by decide
  have hscore : coverageScore plainAnswer.answer = 0 := coverageScore_zero hm
  have hcrval : runCheck "citation_coverage" profileCitZeroThr.citation_coverage
      (citationCoverageEval "q" "ctx" plainAnswer.answer plainAnswer.citations
        profileCitZeroThr.citation_coverage.threshold)
      = ({ check_name := "citation_coverage"
           status := CheckStatus.PASS
           score := 0
           threshold := 0
           hard_fail := true
           message := "Citation coverage" } : CheckResult) := by
    simp only [citationCoverageEval, runCheck]
    rw [hscore]
    norm_num [profileCitZeroThr]
  have hchecks : (judgeEvaluate tableGroundErr profileCitZeroThr "q" "ctx" plainAnswer).checks
      = [runCheck "citation_coverage" profileCitZeroThr.citation_coverage
          (citationCoverageEval "q" "ctx" plainAnswer.answer plainAnswer.citations
            profileCitZeroThr.citation_coverage.threshold)] := by
    simp only [judgeEvaluate, compileReport_checks]
    simp [enabledCheck, profileCitZeroThr, offConfig, tableGroundErr]
  refine ⟨rfl, rfl, hm, ?_, ?_⟩
  · rw [hchecks, hcrval]
    exact ⟨_, List.mem_singleton_self _, rfl, rfl, rfl⟩
  · apply (compileReport_pass_iff _).mpr
    intro r hr
    have hr2 : r ∈ (judgeEvaluate tableGroundErr profileCitZeroThr "q" "ctx"
        plainAnswer).checks := hr
    rw [hchecks, hcrval] at hr2
    rcases List.mem_singleton.mp hr2 with rfl
    decide

/-!
### Helper lemmas for the fusion claims
-/

/-- Every final fused entry carries the chunk id, RRF score and metadata of
an entry of the scored map: the sort permutes, diversity/dedup/top-k select
sublists, and rank assignment only sets `final_rank`. -/
theorem fuseResults_mem_entry {v : List VectorResult} {d : List DocumentResult}
    {g : List GraphResult} {p : FusionProfile} {e : FusedEntry}
    (he : e ∈ fuseResults v d g p) :
    ∃ e₀ ∈ entriesOf (chunkScores p v d g),
      e.chunk_id = e₀.chunk_id ∧ e.rrf_score = e₀.rrf_score ∧
        e.metadata = e₀.metadata := by
  simp only [fuseResults] at he
  obtain ⟨e₁, h₁, m, rfl⟩ := mem_assignRanks _ _ _ he
  have h₂ : e₁ ∈ dedupResults p.dedup_threshold
      (if p.apply_diversity_constraints = true then
        applyDiversity (sortByScore (entriesOf (chunkScores p v d g)))
          p.max_chunks_per_doc p.min_distinct_docs
      else sortByScore (entriesOf (chunkScores p v d g))) :=
    (List.take_sublist _ _).subset h₁
  have h₃ := (dedupResults_sublist _ _).subset h₂
  have h₄ : e₁ ∈ sortByScore (entriesOf (chunkScores p v d g)) := by
    by_cases hc : p.apply_diversity_constraints = true
    · rw [if_pos hc] at h₃
      exact (diversityLoop_sublist _ _ _).subset h₃
    · rwa [if_neg hc] at h₃
  have h₅ := (sortByScore_perm _).subset h₄
  exact ⟨e₁, h₅, rfl, rfl, rfl⟩

/-- The final fused list is sorted by RRF score descending. -/
theorem fuseResults_sorted (v : List VectorResult) (d : List DocumentResult)
    (g : List GraphResult) (p : FusionProfile) :
    (fuseResults v d g p).Pairwise (fun a b => b.rrf_score ≤ a.rrf_score) := by
  simp only [fuseResults]
  apply assignRanks_pairwise (fun a b m k h => h)
  apply List.Pairwise.sublist (List.take_sublist _ _)
  apply List.Pairwise.sublist (dedupResults_sublist _ _)
  by_cases hc : p.apply_diversity_constraints = true
  · rw [if_pos hc]
    exact List.Pairwise.sublist (diversityLoop_sublist _ _ _) (sortByScore_sorted _)
  · rw [if_neg hc]
    exact sortByScore_sorted _

/-- In a list with no duplicated keys, filtering for a member's key keeps
exactly that member. -/
theorem filter_single_of_nodup {α : Type} (f : α → String) (l : List α)
    (hn : (l.map f).Nodup) (r : α) (hr : r ∈ l) :
    l.filter (fun x => f x = f r) = [r] := by
  induction l with
  | nil => cases hr
  | cons x rest ih =>
    simp only [List.map_cons, List.nodup_cons] at hn
    rcases List.mem_cons.mp hr with rfl | hr'
    · have hrest : rest.filter (fun y => f y = f r) = [] := by
        apply List.filter_eq_nil_iff.mpr
        intro a ha heq
        rw [decide_eq_true_eq] at heq
        exact hn.1 (heq ▸ List.mem_map_of_mem f ha)
      simp [List.filter_cons, hrest]
    · have hx : ¬ (f x = f r) := by
        intro heq
        exact hn.1 (heq ▸ List.mem_map_of_mem f hr')
      have hstep : (x :: rest).filter (fun y => f y = f r)
          = rest.filter (fun y => f y = f r) := by
        simp [List.filter_cons, hx]
      rw [hstep]
      exact ih hn.2 hr'

/-!
### Claim theorems: fusion (C3, C5, C7)
-/

/-- C3: for every fusion profile and modality lists, every fused entry's
score is the sum over the three modalities of that chunk's RRF
contributions; a modality in which the chunk is absent contributes zero;
when a modality's chunk ids are duplicate-free (what a ranked result list
provides), a chunk at 1-indexed rank r contributes exactly
`weight/(rrf_k + r)`; the output is sorted by fused score descending; and
in particular one chunk at rank 1 in all three modalities with weights
{1,1,1} and k = 60 receives fused score 3/61. -/
theorem rrf_fusion_scoring :
    (∀ (p : FusionProfile) (v : List VectorResult) (d : List DocumentResult)
        (g : List GraphResult),
      (∀ e ∈ fuseResults v d g p,
        e.rrf_score = vectorContrib p v e.chunk_id
          + documentContrib p d e.chunk_id + graphContrib p g e.chunk_id) ∧
      (∀ c, (∀ r ∈ v, r.chunk_id ≠ c) → vectorContrib p v c = 0) ∧
      (∀ c, (∀ r ∈ d, r.chunk_id ≠ c) → documentContrib p d c = 0) ∧
      (∀ c, (∀ r ∈ g, r.chunk_id ≠ c) → graphContrib p g c = 0) ∧
      ((v.map (·.chunk_id)).Nodup → ∀ r ∈ v, vectorContrib p v r.chunk_id
        = p.vector_weight / ((p.rrf_k : ℚ) + (r.rank : ℚ))) ∧
      ((d.map (·.chunk_id)).Nodup → ∀ r ∈ d, documentContrib p d r.chunk_id
        = p.document_weight / ((p.rrf_k : ℚ) + (r.rank : ℚ))) ∧
      ((g.map (·.chunk_id)).Nodup → ∀ r ∈ g, graphContrib p g r.chunk_id
        = p.graph_weight / ((p.rrf_k : ℚ) + (r.rank : ℚ))) ∧
      (fuseResults v d g p).Pairwise (fun a b => b.rrf_score ≤ a.rrf_score)) ∧
    (fuseResults scenarioBVector scenarioBDoc scenarioBGraph scenarioBProfile).map
      (·.rrf_score) = [3 / 61] := by
  constructor
  · intro p v d g
    refine ⟨?_, ?_, ?_, ?_, ?_, ?_, ?_, fuseResults_sorted v d g p⟩
    · intro e he
      obtain ⟨e₀, h₀, hid, hsc, _⟩ := fuseResults_mem_entry he
      rw [hsc, hid]
      exact entriesOf_rrf h₀
    · intro c hc
      unfold vectorContrib
      have hnil : v.filter (·.chunk_id = c) = [] := by
        apply List.filter_eq_nil_iff.mpr
        intro a ha heq
        rw [decide_eq_true_eq] at heq
        exact hc a ha heq
      rw [hnil]
      simp
    · intro c hc
      unfold documentContrib
      have hnil : d.filter (·.chunk_id = c) = [] := by
        apply List.filter_eq_nil_iff.mpr
        intro a ha heq
        rw [decide_eq_true_eq] at heq
        exact hc a ha heq
      rw [hnil]
      simp
    · intro c hc
      unfold graphContrib
      have hnil : g.filter (·.chunk_id = c) = [] := by
        apply List.filter_eq_nil_iff.mpr
        intro a ha heq
        rw [decide_eq_true_eq] at heq
        exact hc a ha heq
      rw [hnil]
      simp
    · intro hn r hr
      unfold vectorContrib
      rw [filter_single_of_nodup (fun x => x.chunk_id) v hn r hr]
      simp
    · intro hn r hr
      unfold documentContrib
      rw [filter_single_of_nodup (fun x => x.chunk_id) d hn r hr]
      simp
    · intro hn r hr
      unfold graphContrib
      rw [filter_single_of_nodup (fun x => x.chunk_id) g hn r hr]
      simp
  · norm_num [fuseResults, chunkScores, addVectorResults, addDocumentResults,
      addGraphResults, updScore, entriesOf, sortByScore, insertDesc,
      applyDiversity, diversityLoop, entryDocId, metaDocId, metaLookup,
      dedupResults, dedupLoop, metaText, assignRanks, scenarioBProfile,
      scenarioBVector, scenarioBDoc, scenarioBGraph]

theorem rrf_fusion_scoring_witness :
    (scenarioBVector.map (·.chunk_id)).Nodup ∧
      ∀ r ∈ scenarioBVector,
        vectorContrib scenarioBProfile scenarioBVector r.chunk_id
          = scenarioBProfile.vector_weight
            / ((scenarioBProfile.rrf_k : ℚ) + (r.rank : ℚ)) :=
  ⟨by decide,
   (rrf_fusion_scoring.1 scenarioBProfile scenarioBVector scenarioBDoc
      scenarioBGraph).2.2.2.2.1 (by decide)⟩

/-- C5 (amended): for every fusion profile with the diversity pass enabled
(`apply_diversity_constraints = true`) and every input, the fused output
never contains more than `max_chunks_per_doc` candidates whose metadata
carries the same doc_id; when the flag is false — which the claim, written
over every fusion profile, does not except — the pass is skipped entirely
and the bound can be exceeded. -/
theorem fusion_diversity_cap (p : FusionProfile) (v : List VectorResult)
    (d : List DocumentResult) (g : List GraphResult)
    (hdiv : p.apply_diversity_constraints = true) (did : String) :
    (fuseResults v d g p).countP (fun e => entryDocId e = some did)
      ≤ p.max_chunks_per_doc := by
  simp only [fuseResults, if_pos hdiv]
  rw [assignRanks_countP (fun e => decide (entryDocId e = some did)) (fun e m => rfl)]
  have h1 := List.Sublist.countP_le (fun e => decide (entryDocId e = some did))
    (List.take_sublist p.final_top_k
      (dedupResults p.dedup_threshold
        (applyDiversity (sortByScore (entriesOf (chunkScores p v d g)))
          p.max_chunks_per_doc p.min_distinct_docs)))
  have h2 := List.Sublist.countP_le (fun e => decide (entryDocId e = some did))
    (dedupResults_sublist p.dedup_threshold
      (applyDiversity (sortByScore (entriesOf (chunkScores p v d g)))
        p.max_chunks_per_doc p.min_distinct_docs))
  have h3 := diversityLoop_cap p.max_chunks_per_doc did
    (sortByScore (entriesOf (chunkScores p v d g))) []
  have h4 : countsGet [] did = 0 := rfl
  rw [h4, Nat.sub_zero] at h3
  exact le_trans h1 (le_trans h2 h3)

theorem fusion_diversity_cap_witness :
    scenarioBProfile.apply_diversity_constraints = true ∧
      (fuseResults scenarioBVector scenarioBDoc scenarioBGraph
          scenarioBProfile).countP (fun e => entryDocId e = some "doc1")
        ≤ scenarioBProfile.max_chunks_per_doc :=
  ⟨rfl, fusion_diversity_cap scenarioBProfile scenarioBVector scenarioBDoc
    scenarioBGraph rfl "doc1"⟩

/-- C5 counterexample: a fusion profile with
`apply_diversity_constraints = false` and `max_chunks_per_doc = 1` lets two
candidates of the same document through — the claim fails as stated over
every fusion profile. -/
theorem fusion_diversity_cap_cex :
    divOffProfile.max_chunks_per_doc = 1 ∧
      (fuseResults sameDocVector [] [] divOffProfile).countP
        (fun e => entryDocId e = some "d") = 2 := by
  refine ⟨rfl, ?_⟩
  norm_num [fuseResults, chunkScores, addVectorResults, addDocumentResults,
    addGraphResults, updScore, entriesOf, sortByScore, insertDesc, dedupResults,
    assignRanks, divOffProfile, sameDocVector, entryDocId, metaDocId,
    metaLookup, List.countP_cons, List.find?]
  decide

/-- C7 (amended): for every fusion profile whose dedup threshold is below
1.0 (at exactly 1.0 the pass is skipped, and the model permits 1.0), the
fused output never contains two candidates with identical non-empty chunk
texts. -/
theorem fusion_dedup_no_duplicate_texts (p : FusionProfile)
    (v : List VectorResult) (d : List DocumentResult) (g : List GraphResult)
    (hthr : p.dedup_threshold < 1) :
    (fuseResults v d g p).Pairwise
      (fun a b => metaText a.metadata = metaText b.metadata →
        metaText a.metadata = "") := by
  simp only [fuseResults]
  apply assignRanks_pairwise (fun a b m k h => h)
  apply List.Pairwise.sublist (List.take_sublist _ _)
  unfold dedupResults
  rw [if_neg (not_le.mpr hthr)]
  exact dedupLoop_pairwise _ []

theorem fusion_dedup_no_duplicate_texts_witness :
    scenarioBProfile.dedup_threshold < 1 ∧
      (fuseResults scenarioBVector scenarioBDoc scenarioBGraph
          scenarioBProfile).Pairwise
        (fun a b => metaText a.metadata = metaText b.metadata →
          metaText a.metadata = "") :=
  ⟨by decide, fusion_dedup_no_duplicate_texts scenarioBProfile scenarioBVector
    scenarioBDoc scenarioBGraph (by decide)⟩

/-- C7 counterexample: with the permitted dedup threshold 1.0 the dedup
pass is skipped, and two candidates with the same non-empty text survive —
the claim fails as stated over every fusion profile. -/
theorem fusion_dedup_cex :
    (fuseResults sameTextVector [] [] dedupOffProfile).map
        (fun e => metaText e.metadata) = ["dup", "dup"] ∧ "dup" ≠ "" := by
  refine ⟨?_, by decide⟩
  norm_num [fuseResults, chunkScores, addVectorResults, addDocumentResults,
    addGraphResults, updScore, entriesOf, sortByScore, insertDesc, dedupResults,
    assignRanks, dedupOffProfile, sameTextVector, metaText, metaLookup,
    List.find?]

/-!
### Helper lemmas for the context-compiler claim
-/

/-- The packing loop either leaves the running total unchanged (nothing was
packed before the break) or ends with a total within the budget. -/
theorem packGo_total (tok : String → ℕ) (profile : ContextProfile) (budget : ℤ) :
    ∀ (l : List (ℕ × EnrichedChunk)) (total : ℕ),
      (packGo tok profile budget l total).2.2 = total ∨
        ((packGo tok profile budget l total).2.2 : ℤ) ≤ budget := by
  intro l
  induction l with
  | nil => intro total; exact Or.inl rfl
  | cons q rest ih =>
    intro total
    obtain ⟨rank, c⟩ := q
    by_cases h1 : c.text = ""
    · have hstep : packGo tok profile budget ((rank, c) :: rest) total
          = packGo tok profile budget rest total := by
        simp only [packGo, if_pos h1]
      rw [hstep]
      exact ih total
    · by_cases h2 : budget < (total : ℤ) + (unitTokens tok profile (rank, c) : ℤ)
      · have hstep : packGo tok profile budget ((rank, c) :: rest) total
            = ([], [], total) := by
          simp only [packGo, if_neg h1, if_pos h2]
        rw [hstep]
        exact Or.inl rfl
      · have hstep : (packGo tok profile budget ((rank, c) :: rest) total).2.2
            = (packGo tok profile budget rest
                (total + unitTokens tok profile (rank, c))).2.2 := by
          simp only [packGo, if_neg h1, if_neg h2]
        rw [hstep]
        rcases ih (total + unitTokens tok profile (rank, c)) with h | h
        · right
          rw [h]
          push_cast
          omega
        · exact Or.inr h

/-- Characterization of the packing loop: the packed list is built from a
front segment of the units (the non-empty-text candidates, in order), every
intermediate total stays within the budget, and if packing stopped before
exhausting the units then the very next unit would overflow the budget. -/
theorem packGo_spec (tok : String → ℕ) (profile : ContextProfile) (budget : ℤ) :
    ∀ (l : List (ℕ × EnrichedChunk)) (total : ℕ),
      ∃ n, n ≤ (l.filter (fun q => q.2.text ≠ "")).length ∧
        (packGo tok profile budget l total).1
          = ((l.filter (fun q => q.2.text ≠ "")).take n).map
              (mkPackedChunk tok profile) ∧
        (packGo tok profile budget l total).2.1
          = ((l.filter (fun q => q.2.text ≠ "")).take n).map
              (fun q => renderChunk profile q.2 q.1) ∧
        (packGo tok profile budget l total).2.2
          = total + (((l.filter (fun q => q.2.text ≠ "")).take n).map
              (unitTokens tok profile)).sum ∧
        (∀ m, 1 ≤ m → m ≤ n →
          (total : ℤ) + ((((l.filter (fun q => q.2.text ≠ "")).take m).map
            (unitTokens tok profile)).sum : ℤ) ≤ budget) ∧
        (n < (l.filter (fun q => q.2.text ≠ "")).length →
          budget < (total : ℤ) + ((((l.filter (fun q => q.2.text ≠ "")).take
            (n + 1)).map (unitTokens tok profile)).sum : ℤ)) := by
  intro l
  induction l with
  | nil =>
    intro total
    refine ⟨0, by simp, by simp [packGo], by simp [packGo], by simp [packGo], ?_, ?_⟩
    · intro m h1 h0
      omega
    · intro h
      simp at h
  | cons q rest ih =>
    intro total
    obtain ⟨rank, c⟩ := q
    by_cases h1 : c.text = ""
    · have hf : ((rank, c) :: rest).filter (fun q => q.2.text ≠ "")
          = rest.filter (fun q => q.2.text ≠ "") := by
        simp [List.filter_cons, h1]
      have hstep : packGo tok profile budget ((rank, c) :: rest) total
          = packGo tok profile budget rest total := by
        simp only [packGo, if_pos h1]
      rw [hf, hstep]
      exact ih total
    · have hf : ((rank, c) :: rest).filter (fun q => q.2.text ≠ "")
          = (rank, c) :: rest.filter (fun q => q.2.text ≠ "") := by
        simp [List.filter_cons, h1]
      rw [hf]
      by_cases h2 : budget < (total : ℤ) + (unitTokens tok profile (rank, c) : ℤ)
      · have hstep : packGo tok profile budget ((rank, c) :: rest) total
            = ([], [], total) := by
          simp only [packGo, if_neg h1, if_pos h2]
        rw [hstep]
        refine ⟨0, by simp, by simp, by simp, by simp, ?_, ?_⟩
        · intro m hm h0
          omega
        · intro _
          simpa using h2
      · have hstep : packGo tok profile budget ((rank, c) :: rest) total
            = (mkPackedChunk tok profile (rank, c)
                :: (packGo tok profile budget rest
                    (total + unitTokens tok profile (rank, c))).1,
               renderChunk profile c rank
                :: (packGo tok profile budget rest
                    (total + unitTokens tok profile (rank, c))).2.1,
               (packGo tok profile budget rest
                    (total + unitTokens tok profile (rank, c))).2.2) := by
          simp only [packGo, if_neg h1, if_neg h2]
        obtain ⟨n', hlen, hp, hparts, htot, hbound, hover⟩ :=
          ih (total + unitTokens tok profile (rank, c))
        refine ⟨n' + 1, by simpa using hlen, ?_, ?_, ?_, ?_, ?_⟩
        · rw [hstep]
          simp only [List.take_succ_cons, List.map_cons]
          rw [hp]
        · rw [hstep]
          simp only [List.take_succ_cons, List.map_cons]
          rw [hparts]
        · rw [hstep]
          simp only [List.take_succ_cons, List.map_cons, List.sum_cons]
          rw [htot]
          omega
        · intro m hm1 hmn
          cases m with
          | zero => omega
          | succ m' =>
            simp only [List.take_succ_cons, List.map_cons, List.sum_cons]
            cases Nat.eq_zero_or_pos m' with
            | inl h0 =>
              subst h0
              simp only [List.take_zero, List.map_nil, List.sum_nil, Nat.add_zero]
              omega
            | inr hpos =>
              have := hbound m' hpos (by omega)
              push_cast at this ⊢
              omega
        · intro hlt
          have hlt' : n' < (rest.filter (fun q => q.2.text ≠ "")).length := by
            simpa using hlt
          have := hover hlt'
          simp only [List.take_succ_cons, List.map_cons, List.sum_cons]
          push_cast at this ⊢
          omega

/-!
### Claim theorem: context compiler (C4)
-/

/-- C4: for every candidate list, query and context profile (and any
tokenizer, redaction pass and document store content), the ContextPack
returned by `compile_context` satisfies `tokens_used ≤ token_budget`, and
packing is greedy over the final-rank order: the packed chunks are the
first `n` units (candidates with non-empty loaded text, in rank order) for
some `n`, every intermediate running total stays within the available
budget, and when packing stopped before the last unit, the first unit not
packed would have pushed the total past the budget — all remaining
lower-ranked candidates are dropped, never skipped and retried. -/
theorem context_token_budget_and_greedy_packing
    (tok : String → ℕ) (redact : String → String × List String)
    (allChunks : List StoreChunk) (fused : List FusedEntry) (query : String)
    (profile : ContextProfile) :
    (compileContext tok redact allChunks fused query profile).tokens_used
      ≤ (compileContext tok redact allChunks fused query profile).token_budget ∧
    (∃ n,
      n ≤ ((List.enumFrom 1 (loadChunkTexts allChunks fused)).filter
        (fun q => q.2.text ≠ "")).length ∧
      (compileContext tok redact allChunks fused query profile).chunks
        = (((List.enumFrom 1 (loadChunkTexts allChunks fused)).filter
            (fun q => q.2.text ≠ "")).take n).map (mkPackedChunk tok profile) ∧
      (compileContext tok redact allChunks fused query profile).tokens_used
        = ((((List.enumFrom 1 (loadChunkTexts allChunks fused)).filter
            (fun q => q.2.text ≠ "")).take n).map (unitTokens tok profile)).sum ∧
      (∀ m, 1 ≤ m → m ≤ n →
        (((((List.enumFrom 1 (loadChunkTexts allChunks fused)).filter
          (fun q => q.2.text ≠ "")).take m).map (unitTokens tok profile)).sum : ℤ)
          ≤ availableBudget profile) ∧
      (n < ((List.enumFrom 1 (loadChunkTexts allChunks fused)).filter
          (fun q => q.2.text ≠ "")).length →
        availableBudget profile
          < (((((List.enumFrom 1 (loadChunkTexts allChunks fused)).filter
              (fun q => q.2.text ≠ "")).take (n + 1)).map
              (unitTokens tok profile)).sum : ℤ))) := by
  constructor
  · show (packChunks tok profile (availableBudget profile)
        (loadChunkTexts allChunks fused)).2.2 ≤ profile.max_context_tokens
    unfold packChunks
    rcases packGo_total tok profile (availableBudget profile)
      (List.enumFrom 1 (loadChunkTexts allChunks fused)) 0 with h | h
    · rw [h]
      exact Nat.zero_le _
    · have hub : availableBudget profile ≤ (profile.max_context_tokens : ℤ) := by
        unfold availableBudget
        omega
      omega
  · obtain ⟨n, hlen, hp, _, htot, hbound, hover⟩ :=
      packGo_spec tok profile (availableBudget profile)
        (List.enumFrom 1 (loadChunkTexts allChunks fused)) 0
    refine ⟨n, hlen, hp, ?_, ?_, ?_⟩
    · show (packChunks tok profile (availableBudget profile)
          (loadChunkTexts allChunks fused)).2.2 = _
      unfold packChunks
      rw [htot]
      omega
    · intro m h1 h2
      have := hbound m h1 h2
      push_cast at this ⊢
      omega
    · intro hlt
      have := hover hlt
      push_cast at this ⊢
      omega

theorem context_token_budget_and_greedy_packing_witness :
    (compileContext witnessTok witnessRedact witnessStore witnessFused
        "what is alpha" witnessContextProfile).tokens_used
      ≤ (compileContext witnessTok witnessRedact witnessStore witnessFused
        "what is alpha" witnessContextProfile).token_budget :=
  (context_token_budget_and_greedy_packing witnessTok witnessRedact
    witnessStore witnessFused "what is alpha" witnessContextProfile).1

/-!
### Claim theorems: chat compaction (C6)
-/

/-- C6 (amended): whenever the compaction trigger fires — the uncompacted
turns' token sum exceeds `compaction_threshold_tokens`, or the turn count
exceeds `max_history_turns` — `check_and_compact` returns true.  If in
addition the turn count exceeds keep = max(1, max_history_turns//2), then
exactly the last keep turns are retained; on summarizer success the summary
is stored and `summary_covers_turns` holds exactly the removed turn
numbers; on summarizer failure the older turns are dropped with the summary
and covered list left unchanged.  But when the turn count is at most keep —
reachable, since the token trigger can fire over few turns — the session is
returned entirely unchanged, against the claim's "retains exactly
max(1, max_history_turns//2) verbatim turns". -/
theorem chat_compaction_effect (summ : Except String String)
    (session : ChatSession) (profile : ChatProfile)
    (htrig : (session.history.turns.map (·.tokens)).sum
        > profile.compaction_threshold_tokens ∨
      session.history.turns.length > profile.max_history_turns) :
    (checkAndCompact summ session profile).1 = true ∧
    (session.history.turns.length > max 1 (profile.max_history_turns / 2) →
      ((checkAndCompact summ session profile).2.history.turns
          = session.history.turns.drop
            (session.history.turns.length - max 1 (profile.max_history_turns / 2)) ∧
        (checkAndCompact summ session profile).2.history.turns.length
          = max 1 (profile.max_history_turns / 2) ∧
        (∀ txt, summ = .ok txt →
          (checkAndCompact summ session profile).2.history.summary = some txt ∧
            (checkAndCompact summ session profile).2.history.summary_covers_turns
              = (session.history.turns.take
                  (session.history.turns.length
                    - max 1 (profile.max_history_turns / 2))).map (·.turn_number)) ∧
        (∀ e, summ = .error e →
          (checkAndCompact summ session profile).2.history.summary
              = session.history.summary ∧
            (checkAndCompact summ session profile).2.history.summary_covers_turns
              = session.history.summary_covers_turns))) ∧
    (session.history.turns.length ≤ max 1 (profile.max_history_turns / 2) →
      (checkAndCompact summ session profile).2 = session) := by
  have hcc : checkAndCompact summ session profile
      = (true, compactHistory summ session profile) := by
    unfold checkAndCompact
    rw [if_pos htrig]
  rw [hcc]
  refine ⟨rfl, ?_, ?_⟩
  · intro hgt
    have hne : ¬ (session.history.turns.length
        ≤ max 1 (profile.max_history_turns / 2)) := not_le.mpr hgt
    cases summ with
    | ok txt =>
      have hch : compactHistory (.ok txt) session profile
          = { session with history :=
              { session.history with
                  summary := some txt
                  summary_covers_turns := (session.history.turns.take
                    (session.history.turns.length
                      - max 1 (profile.max_history_turns / 2))).map (·.turn_number)
                  turns := session.history.turns.drop
                    (session.history.turns.length
                      - max 1 (profile.max_history_turns / 2)) } } := by
        simp only [compactHistory, if_neg hne]
      rw [hch]
      refine ⟨rfl, ?_, ?_, ?_⟩
      · simp only [List.length_drop]
        omega
      · intro t ht
        injection ht with ht
        subst ht
        exact ⟨rfl, rfl⟩
      · intro e he
        cases he
    | error e =>
      have hch : compactHistory (.error e) session profile
          = { session with history :=
              { session.history with
                  turns := session.history.turns.drop
                    (session.history.turns.length
                      - max 1 (profile.max_history_turns / 2)) } } := by
        simp only [compactHistory, if_neg hne]
      rw [hch]
      refine ⟨rfl, ?_, ?_, ?_⟩
      · simp only [List.length_drop]
        omega
      · intro t ht
        cases ht
      · intro e' he'
        exact ⟨rfl, rfl⟩
  · intro hle
    simp only [compactHistory, if_pos hle]

theorem chat_compaction_effect_witness :
    ((witnessChatSession.history.turns.map (·.tokens)).sum
        > witnessChatProfile.compaction_threshold_tokens ∨
      witnessChatSession.history.turns.length
        > witnessChatProfile.max_history_turns) ∧
    (checkAndCompact (.ok "summary of turns") witnessChatSession
        witnessChatProfile).1 = true ∧
    witnessChatSession.history.turns.length
      > max 1 (witnessChatProfile.max_history_turns / 2) :=
  ⟨Or.inl (by decide),
   (chat_compaction_effect (.ok "summary of turns") witnessChatSession
     witnessChatProfile (Or.inl (by decide))).1,
   by decide⟩

/-- C6 counterexample: with compaction_threshold_tokens = 500,
max_history_turns = 10 and three 200-token turns, the trigger fires and
`check_and_compact` returns true, yet — because 3 ≤ max(1, 10//2) = 5 —
the session is returned unchanged: 3 turns are retained, not 5, and the
summary stays null although the summarizer would have succeeded. -/
theorem chat_compaction_cex :
    (checkAndCompact (.ok "SUMMARY") witnessChatSession cexChatProfile).1 = true ∧
      (checkAndCompact (.ok "SUMMARY") witnessChatSession cexChatProfile).2
        = witnessChatSession ∧
      witnessChatSession.history.turns.length = 3 ∧
      max 1 (cexChatProfile.max_history_turns / 2) = 5 ∧
      (3 : ℕ) ≠ 5 ∧
      (checkAndCompact (.ok "SUMMARY") witnessChatSession
        cexChatProfile).2.history.summary = none := by
  refine ⟨by decide, by decide, by decide, by decide, by decide, by decide⟩

/-!
### Claim theorems: quit handling (C9, C10)
-/

theorem getSession_deleteSession (tbl : SessionTable) (sid : String) :
    getSession (deleteSession tbl sid) sid = none := by
  induction tbl with
  | nil => rfl
  | cons kv rest ih =>
    obtain ⟨k, v⟩ := kv
    by_cases hk : k = sid
    · have hstep : deleteSession ((k, v) :: rest) sid = deleteSession rest sid := by
        simp [deleteSession, List.filter_cons, hk]
      rw [hstep]
      exact ih
    · have hstep : deleteSession ((k, v) :: rest) sid
          = (k, v) :: deleteSession rest sid := by
        simp [deleteSession, List.filter_cons, hk]
      rw [hstep]
      have hfind : getSession ((k, v) :: deleteSession rest sid) sid
          = getSession (deleteSession rest sid) sid := by
        simp [getSession, List.find?_cons, hk]
      rw [hfind]
      exact ih

/-- C9: `check_quit_command` returns true exactly on queries whose trimmed,
lowercased form equals the literal "quit"; in chat mode such a query
short-circuits before retrieval — for an existing (truthy) session id the
session is removed from the table, and `execute_run` returns status
"terminated" with no answer. -/
theorem quit_command_handling (st : OrchState) (stages : Stages)
    (runId query : String) (workflow : WorkflowProfile)
    (chatProfile : ChatProfile) (chatProfileId sid : String)
    (sess : ChatSession) (hq : checkQuitCommand query = true)
    (hsid : sid ≠ "") (hmem : getSession st.sessions sid = some sess) :
    (∀ q, checkQuitCommand q = true ↔
      lowerChars (stripChars q.data) = "quit".data) ∧
    getSession st.sessions sid = some sess ∧
    (executeRun st stages runId query workflow chatProfile "chat" (some sid)
      chatProfileId).1.status = "terminated" ∧
    (executeRun st stages runId query workflow chatProfile "chat" (some sid)
      chatProfileId).1.answer = none ∧
    getSession (executeRun st stages runId query workflow chatProfile "chat"
      (some sid) chatProfileId).2.sessions sid = none := by
  have hrun : executeRun st stages runId query workflow chatProfile "chat"
      (some sid) chatProfileId
      = ({ run_id := runId, status := "terminated", session_id := some sid,
           message := some "Chat session terminated" },
         { st with
            runDirs := runId :: st.runDirs
            sessions := deleteSession st.sessions sid }) := by
    simp only [executeRun]
    rw [if_pos (And.intro trivial hq)]
    simp only [Option.getD_some]
    rw [if_pos hsid]
  rw [hrun]
  exact ⟨fun q => by simp [checkQuitCommand], hmem, rfl, rfl,
    getSession_deleteSession st.sessions sid⟩

theorem quit_command_handling_witness :
    checkQuitCommand "  QUIT  " = true ∧ ("s1" : String) ≠ "" ∧
    getSession quitState.sessions "s1" = some { session_id := "s1" } ∧
    (executeRun quitState dummyStages "run-1" "  QUIT  " defaultWorkflow
      witnessChatProfile "chat" (some "s1") "default").1.status = "terminated" ∧
    getSession (executeRun quitState dummyStages "run-1" "  QUIT  "
      defaultWorkflow witnessChatProfile "chat" (some "s1")
      "default").2.sessions "s1" = none :=
  ⟨by decide, by decide, rfl,
   (quit_command_handling quitState dummyStages "run-1" "  QUIT  "
     defaultWorkflow witnessChatProfile "default" "s1" { session_id := "s1" }
     (by decide) (by decide) rfl).2.2.1,
   (quit_command_handling quitState dummyStages "run-1" "  QUIT  "
     defaultWorkflow witnessChatProfile "default" "s1" { session_id := "s1" }
     (by decide) (by decide) rfl).2.2.2.2⟩

/-- C10: a chat-mode run ended by the quit short-circuit never persists the
in-memory CHAT_SESSION_TERMINATED event: `execute_run` returns before any
`_save_events` call, so the per-run persisted log stays untouched; a later
`get_run` on that (fresh) run id finds the run directory but an absent
event log and derives status "unknown", although `execute_run` itself
returned status "terminated". -/
theorem quit_event_not_persisted (st : OrchState) (stages : Stages)
    (runId query : String) (workflow : WorkflowProfile)
    (chatProfile : ChatProfile) (sessionId : Option String)
    (chatProfileId : String) (hq : checkQuitCommand query = true)
    (hfresh : savedLookup st.savedRuns runId = none) :
    (executeRun st stages runId query workflow chatProfile "chat" sessionId
      chatProfileId).1.status = "terminated" ∧
    (executeRun st stages runId query workflow chatProfile "chat" sessionId
      chatProfileId).2.savedRuns = st.savedRuns ∧
    getRunEvents (executeRun st stages runId query workflow chatProfile "chat"
      sessionId chatProfileId).2 runId = [] ∧
    (∀ e ∈ getRunEvents (executeRun st stages runId query workflow chatProfile
        "chat" sessionId chatProfileId).2 runId,
      e.event_type ≠ EventType.CHAT_SESSION_TERMINATED) ∧
    getRun (executeRun st stages runId query workflow chatProfile "chat"
        sessionId chatProfileId).2 runId
      = some { run_id := runId, status := "unknown", events := [] } := by
  have hstate : ((executeRun st stages runId query workflow chatProfile "chat"
      sessionId chatProfileId).1.status = "terminated") ∧
      ((executeRun st stages runId query workflow chatProfile "chat" sessionId
        chatProfileId).2.savedRuns = st.savedRuns) ∧
      ((executeRun st stages runId query workflow chatProfile "chat" sessionId
        chatProfileId).2.runDirs = runId :: st.runDirs) := by
    simp only [executeRun]
    rw [if_pos (And.intro trivial hq)]
    by_cases hs : sessionId.getD "" ≠ ""
    · rw [if_pos hs]
      exact ⟨rfl, rfl, rfl⟩
    · rw [if_neg hs]
      exact ⟨rfl, rfl, rfl⟩
  obtain ⟨h1, h2, h3⟩ := hstate
  have hev : getRunEvents (executeRun st stages runId query workflow chatProfile
      "chat" sessionId chatProfileId).2 runId = [] := by
    unfold getRunEvents
    rw [h2, hfresh]
    rfl
  refine ⟨h1, h2, hev, ?_, ?_⟩
  · intro e he
    rw [hev] at he
    cases he
  · unfold getRun
    rw [h3]
    rw [if_pos (List.mem_cons_self runId st.runDirs)]
    rw [hev]
    rfl

theorem quit_event_not_persisted_witness :
    checkQuitCommand "quit" = true ∧
    savedLookup quitState.savedRuns "run-2" = none ∧
    (executeRun quitState dummyStages "run-2" "quit" defaultWorkflow
      witnessChatProfile "chat" (some "s1") "default").1.status = "terminated" ∧
    getRun (executeRun quitState dummyStages "run-2" "quit" defaultWorkflow
        witnessChatProfile "chat" (some "s1") "default").2 "run-2"
      = some { run_id := "run-2", status := "unknown", events := [] } :=
  ⟨by decide, rfl,
   (quit_event_not_persisted quitState dummyStages "run-2" "quit"
     defaultWorkflow witnessChatProfile (some "s1") "default"
     (by decide) rfl).1,
   (quit_event_not_persisted quitState dummyStages "run-2" "quit"
     defaultWorkflow witnessChatProfile (some "s1") "default"
     (by decide) rfl).2.2.2.2⟩

end RAGMesh
